import Mathlib

/-! gocliselect: a shallow embedding of `gocliselect.go`

The Go package keeps one mutable `Menu` value and drives it from a blocking
keyboard loop.  Here the menu is an immutable record, every method is a function
returning the updated record, standard output is the text appended to a string,
and the keyboard is the finite list of key codes that `getInput` returned so far.

Conventions of the embedding:

* Go `int` is `Int`.  The only arithmetic is `CursorPos + len - 1` and
  `CursorPos + 1`; a slice holds far fewer than `2^62` pointers, so with
  `CursorPos` between `-1` and `len` no 64-bit wrap can occur.
* Go `%` truncates towards zero (`Int.tmod`) and panics on a zero divisor;
  indexing a slice panics outside `0 ≤ i < len`.  Both are `Option`-valued.
* `byte` values are natural numbers.
* `MenuItem.SubMenu` is never read or assigned by the package and is left out.
* `goterm.Color`, `goterm.Bold` and the colour constants belong to an external
  library; they are the fields of the parameter `Goterm`.
* `log.Fatal` on a terminal fault ends the process and is outside the model: a
  `TtyRead` is a read that succeeded.
* `Reachable` is the set of menus a caller can obtain: `NewMenu`, then `AddItem`,
  `AddHint` and `Display` sessions that returned, in any order.
-/

namespace Gocliselect

/-! ## Raw input keycodes -/

def up : Nat := 65
def down : Nat := 66
def escape : Nat := 27
def enter : Nat := 13

/-- The map `keys`: the recognised arrow codes, each bound to `true`. -/
def keys : List (Nat × Bool) := [(up, true), (down, true)]

/-! ## Data model -/

structure MenuItem where
  Text : String
  ID : String
  Selectable : Bool
deriving DecidableEq, Repr

structure Menu where
  Prompt : String
  CursorPos : Int
  MenuItems : List MenuItem
deriving DecidableEq, Repr

/-- The styling functions and colour constants of the `goterm` library. -/
structure Goterm where
  Color : String → Nat → String
  Bold : String → String
  YELLOW : Nat
  CYAN : Nat

/-- A sample terminal: SGR colour codes around the text, as `goterm` documents. -/
def ansi : Goterm where
  Color := fun str color => "\x1b[3" ++ Nat.repr color ++ "m" ++ str ++ "\x1b[0m"
  Bold := fun str => "\x1b[1m" ++ str ++ "\x1b[0m"
  YELLOW := 3
  CYAN := 6

/-! ## Go primitives that can panic -/

/-- Go `a % b`: truncated remainder, `none` for the division-by-zero panic. -/
def goRem (a b : Int) : Option Int :=
  if b = 0 then none else some (Int.tmod a b)

/-- Go `xs[i]`: `none` for the index-out-of-range panic. -/
def index (xs : List MenuItem) (i : Int) : Option MenuItem :=
  if i < 0 then none else xs[i.toNat]?

/-! ## Building a menu -/

def NewMenu (prompt : String) : Menu :=
  { Prompt := prompt, MenuItems := [], CursorPos := -1 }

/-- AddItem will add a new menu option to the menu list. -/
def AddItem (m : Menu) (option id : String) : Menu :=
  let menuItem : MenuItem := { Text := option, ID := id, Selectable := true }
  let m1 : Menu := { m with MenuItems := m.MenuItems ++ [menuItem] }
  if m1.CursorPos = -1 then
    { m1 with CursorPos := (m1.MenuItems.length : Int) - 1 }
  else m1

/-- AddHint will add a new hint line to the menu list. -/
def AddHint (m : Menu) (hint : String) : Menu :=
  let menuItem : MenuItem := { Text := hint, ID := "", Selectable := false }
  { m with MenuItems := m.MenuItems ++ [menuItem] }

/-- One builder call. -/
inductive Call where
  | item (option id : String)
  | hint (text : String)
deriving DecidableEq, Repr

def Call.isItem : Call → Bool
  | .item _ _ => true
  | .hint _ => false

def Call.apply (m : Menu) : Call → Menu
  | .item option id => AddItem m option id
  | .hint text => AddHint m text

/-- The menu after the calls `cs`, in order, on `NewMenu prompt`. -/
def build (prompt : String) (cs : List Call) : Menu :=
  cs.foldl Call.apply (NewMenu prompt)

/-! ## Rendering -/

/-- The body of the `range` loop of `renderMenuItems` for one row. -/
def renderRow (g : Goterm) (m : Menu) (idx : Nat) (menuItem : MenuItem) : String :=
  let newline := if (idx : Int) = (m.MenuItems.length : Int) - 1 then "" else "\n"
  if menuItem.Selectable then
    if (idx : Int) = m.CursorPos then
      "\r" ++ g.Color "> " g.YELLOW ++ " " ++ g.Color menuItem.Text g.YELLOW ++ newline
    else
      "\r" ++ "  " ++ " " ++ menuItem.Text ++ newline
  else
    "\r" ++ g.Color menuItem.Text g.CYAN ++ newline

/-- The `range` loop of `renderMenuItems` from row `idx` on. -/
def renderRows (g : Goterm) (m : Menu) : Nat → List MenuItem → String
  | _, [] => ""
  | idx, menuItem :: rest => renderRow g m idx menuItem ++ renderRows g m (idx + 1) rest

/-- The text `renderMenuItems` prints. -/
def renderMenuItems (g : Goterm) (m : Menu) (redraw : Bool) : String :=
  (if redraw && decide (m.MenuItems.length > 1) then
      "\x1b[" ++ Nat.repr (m.MenuItems.length - 1) ++ "A"
    else "") ++ renderRows g m 0 m.MenuItems

/-! ## Reading a key -/

/-- A successful `t.Read(readBytes)` into the zeroed 3-byte buffer. -/
structure TtyRead where
  b0 : Nat
  b1 : Nat
  b2 : Nat
  read : Nat
deriving DecidableEq, Repr

/-- The classification at the end of `getInput`. -/
def getInput (r : TtyRead) : Nat :=
  if r.read = 3 then
    if (keys.lookup r.b2).isSome then r.b2 else 0
  else r.b0

/-! ## The interaction loop -/

/-- The assignment `m.CursorPos = (m.CursorPos + len - 1) % len`. -/
def cursorUp (items : List MenuItem) (cursor : Int) : Option Int :=
  goRem (cursor + (items.length : Int) - 1) (items.length : Int)

/-- The assignment `m.CursorPos = (m.CursorPos + 1) % len`. -/
def cursorDown (items : List MenuItem) (cursor : Int) : Option Int :=
  goRem (cursor + 1) (items.length : Int)

/-- The loop `for !m.MenuItems[m.CursorPos].Selectable && iter < len(m.MenuItems)`,
whose body is the assignment `next` followed by `iter++`.  The index expression
is evaluated before the bound, as Go does. -/
def skipLoop (next : List MenuItem → Int → Option Int) (items : List MenuItem)
    (cursor : Int) (iter : Nat) : Option Int :=
  match index items cursor with
  | none => none
  | some menuItem =>
    if _h : menuItem.Selectable = false ∧ iter < items.length then
      match next items cursor with
      | none => none
      | some c => skipLoop next items c (iter + 1)
    else some cursor
termination_by items.length - iter
decreasing_by omega

/-- The statements of `case up:` and `case down:` before the redraw. -/
def navigate (next : List MenuItem → Int → Option Int) (m : Menu) : Option Menu :=
  match next m.MenuItems m.CursorPos with
  | none => none
  | some c =>
    match skipLoop next m.MenuItems c 0 with
    | none => none
    | some c1 => some { m with CursorPos := c1 }

/-- What one pass through the `switch` does. -/
inductive Step where
  | again (m : Menu) (out : String)
  | ret (value : String) (m : Menu) (out : String)
  | panic
deriving DecidableEq, Repr

/-- The `switch getInput()` of `Display` for the key code `key`. -/
def handleKey (g : Goterm) (m : Menu) (key : Nat) : Step :=
  if key = escape then
    .ret "" m "\r\n"
  else if key = enter then
    match index m.MenuItems m.CursorPos with
    | none => .panic
    | some menuItem =>
      let m1 : Menu := { m with CursorPos := -1 }
      .ret menuItem.ID m1 (renderMenuItems g m1 true ++ "\r\n")
  else if key = up then
    match navigate cursorUp m with
    | none => .panic
    | some m1 => .again m1 (renderMenuItems g m1 true)
  else if key = down then
    match navigate cursorDown m with
    | none => .panic
    | some m1 => .again m1 (renderMenuItems g m1 true)
  else
    .again m ""

/-- How a session on a finite list of keys ends. -/
inductive Run where
  | returned (value : String) (m : Menu) (out : String)
  | awaiting (m : Menu) (out : String)
  | panicked
deriving DecidableEq, Repr

/-- The value `Display` returned, if it returned. -/
def Run.value? : Run → Option String
  | .returned value _ _ => some value
  | _ => none

/-- The menu when `Display` returned or blocks in `getInput`. -/
def Run.menu? : Run → Option Menu
  | .returned _ m _ => some m
  | .awaiting m _ => some m
  | .panicked => none

/-- The `for` loop of `Display` on the keys `getInput` delivers; `out` is the
text printed so far.  With the keys used up the loop blocks in `getInput`. -/
def displayLoop (g : Goterm) : Menu → String → List Nat → Run
  | m, out, [] => .awaiting m out
  | m, out, key :: rest =>
    match handleKey g m key with
    | .again m1 o => displayLoop g m1 (out ++ o) rest
    | .ret value m1 o => .returned value m1 (out ++ o ++ "\x1b[?25h")
    | .panic => .panicked

/-- The statements of `Display` before the loop: the menu and the text printed. -/
def displayStart (g : Goterm) (m : Menu) : Menu × String :=
  let m0 := if m.MenuItems.length = 0 then AddHint m "" else m
  (m0, g.Color (g.Bold m0.Prompt ++ ":") g.CYAN ++ "\n" ++ renderMenuItems g m0 false
    ++ "\x1b[?25l")

/-- Display on the key codes `ks`; the deferred show-cursor sequence ends the
output of a session that returns. -/
def Display (g : Goterm) (m : Menu) (ks : List Nat) : Run :=
  displayLoop g (displayStart g m).1 (displayStart g m).2 ks

/-- Display on raw terminal reads, each decoded by `getInput`. -/
def DisplayReads (g : Goterm) (m : Menu) (rs : List TtyRead) : Run :=
  Display g m (rs.map getInput)

/-- The index of the first selectable item, `-1` when there is none. -/
def firstSelectable : List MenuItem → Int
  | [] => -1
  | menuItem :: rest =>
    if menuItem.Selectable then 0
    else if firstSelectable rest = -1 then -1 else firstSelectable rest + 1

/-- The item one builder call appends. -/
def Call.toItem : Call → MenuItem
  | .item option id => { Text := option, ID := id, Selectable := true }
  | .hint text => { Text := text, ID := "", Selectable := false }

/-- Row `i` exists and is selectable. -/
def selectableAt (items : List MenuItem) (i : Nat) : Bool :=
  match items[i]? with
  | some menuItem => menuItem.Selectable
  | none => false

/-- The builder calls that append the selectable items `its`, given as
`(option, id)` pairs, in order. -/
def itemCalls (its : List (String × String)) : List Call :=
  its.map fun x => Call.item x.1 x.2

/-- The three-colour menu of the concrete scenarios. -/
def colours : Menu :=
  build "Colour" (itemCalls [("Red", "r"), ("Green", "g"), ("Blue", "b")])

/-- The skip loop once more, returning the final value of `iter` next to the
cursor: the number of times the loop body ran when it starts from `iter = 0`. -/
def skipLoopIter (next : List MenuItem → Int → Option Int) (items : List MenuItem)
    (cursor : Int) (iter : Nat) : Option (Int × Nat) :=
  match index items cursor with
  | none => none
  | some menuItem =>
    if _h : menuItem.Selectable = false ∧ iter < items.length then
      match next items cursor with
      | none => none
      | some c => skipLoopIter next items c (iter + 1)
    else some (cursor, iter)
termination_by items.length - iter
decreasing_by omega

/-- The two-hint menu of the concrete scenario. -/
def hintsAB : Menu :=
  build "Colour" [Call.hint "A", Call.hint "B"]

/-- The states a caller can bring a menu to: `NewMenu`, then `AddItem`, `AddHint`
and `Display` sessions that returned, in any order. -/
inductive Reachable : Menu → Prop where
  | newMenu (prompt : String) : Reachable (NewMenu prompt)
  | addItem {m : Menu} (option id : String) : Reachable m → Reachable (AddItem m option id)
  | addHint {m : Menu} (hint : String) : Reachable m → Reachable (AddHint m hint)
  | display {m : Menu} (g : Goterm) (ks : List Nat) (value : String) (m1 : Menu)
      (out : String) : Reachable m → Display g m ks = Run.returned value m1 out →
      Reachable m1

/-- The number of line breaks (`\n`) in a text. -/
def lineBreaks (s : String) : Nat :=
  s.data.count '\n'

/-- The cursor-up sequence `renderMenuItems` starts a redraw with. -/
def cursorUpSeq (m : Menu) (redraw : Bool) : String :=
  if redraw && decide (m.MenuItems.length > 1) then
    "\x1b[" ++ Nat.repr (m.MenuItems.length - 1) ++ "A"
  else ""

/-- The line break `renderMenuItems` ends row `idx` with. -/
def rowBreak (m : Menu) (idx : Nat) : String :=
  if (idx : Int) = (m.MenuItems.length : Int) - 1 then "" else "\n"

/-- A menu that mixes hints and selectable items. -/
def mixed : Menu :=
  build "Colour" [Call.hint "Pick one", Call.item "Red" "r", Call.hint "-",
    Call.item "Blue" "b"]

/-! ## Go primitives on in-range values -/

theorem index_natCast (xs : List MenuItem) (i : Nat) : index xs (i : Int) = xs[i]? := by
  simp [index]

theorem index_eq_some_iff (xs : List MenuItem) (i : Int) (it : MenuItem) :
    index xs i = some it ↔ ∃ n : Nat, i = n ∧ xs[n]? = some it := by
  constructor
  · intro h
    unfold index at h
    split at h
    · simp at h
    · exact ⟨i.toNat, by omega, h⟩
  · rintro ⟨n, rfl, h⟩
    rw [index_natCast, h]

theorem goRem_natCast (a n : Nat) (hn : 0 < n) :
    goRem (a : Int) (n : Int) = some ((a % n : Nat) : Int) := by
  have h0 : (n : Int) ≠ 0 := by omega
  rw [Int.ofNat_tmod]
  simp only [goRem, h0, if_false]

theorem cursorDown_natCast (items : List MenuItem) (c : Nat) (hn : 0 < items.length) :
    cursorDown items (c : Int) = some (((c + 1) % items.length : Nat) : Int) := by
  have h := goRem_natCast (c + 1) items.length hn
  rw [← h]
  simp [cursorDown]

theorem cursorUp_natCast (items : List MenuItem) (c : Nat) (hn : 0 < items.length) :
    cursorUp items (c : Int) = some (((c + (items.length - 1)) % items.length : Nat) : Int) := by
  have h := goRem_natCast (c + (items.length - 1)) items.length hn
  rw [← h]
  have e : (c : Int) + (items.length : Int) - 1 = ((c + (items.length - 1) : Nat) : Int) := by
    omega
  simp only [cursorUp, e]

/-! ## The skip loop -/

theorem skipLoop_stop (next : List MenuItem → Int → Option Int) (items : List MenuItem)
    (c : Int) (iter : Nat) (it : MenuItem) (h : index items c = some it)
    (hs : it.Selectable = true) : skipLoop next items c iter = some c := by
  rw [skipLoop, h]
  simp [hs]

theorem skipLoop_bound (next : List MenuItem → Int → Option Int) (items : List MenuItem)
    (c : Int) (iter : Nat) (it : MenuItem) (h : index items c = some it)
    (hi : items.length ≤ iter) : skipLoop next items c iter = some c := by
  rw [skipLoop, h]
  have : ¬ iter < items.length := by omega
  simp [this]

theorem skipLoop_step (next : List MenuItem → Int → Option Int) (items : List MenuItem)
    (c c1 : Int) (iter : Nat) (it : MenuItem) (h : index items c = some it)
    (hs : it.Selectable = false) (hi : iter < items.length) (hn : next items c = some c1) :
    skipLoop next items c iter = skipLoop next items c1 (iter + 1) := by
  rw [skipLoop, h]
  simp [hs, hi, hn]

theorem selectableAt_true_iff (items : List MenuItem) (i : Nat) :
    selectableAt items i = true ↔ ∃ it, items[i]? = some it ∧ it.Selectable = true := by
  unfold selectableAt
  cases items[i]? <;> simp

theorem selectableAt_lt (items : List MenuItem) (i : Nat) (h : selectableAt items i = true) :
    i < items.length := by
  obtain ⟨it, hit, _⟩ := (selectableAt_true_iff items i).1 h
  exact (List.getElem?_eq_some_iff.1 hit).1

/-- Moving by `a` rows modulo the length at most `d` more times, the skip loop
stops on the first selectable row it meets, if row `(c + d * a) % len` is one. -/
theorem skipLoop_finds (next : List MenuItem → Int → Option Int) (items : List MenuItem)
    (a : Nat)
    (hnext : ∀ c : Nat, c < items.length →
      next items (c : Int) = some (((c + a) % items.length : Nat) : Int)) :
    ∀ (d c iter : Nat), c < items.length → iter + d ≤ items.length →
      selectableAt items ((c + d * a) % items.length) = true →
      ∃ j, j ≤ d ∧
        skipLoop next items (c : Int) iter = some (((c + j * a) % items.length : Nat) : Int) ∧
        selectableAt items ((c + j * a) % items.length) = true ∧
        ∀ i, i < j → selectableAt items ((c + i * a) % items.length) = false := by
  intro d
  induction d with
  | zero =>
    intro c iter hc _ hsel
    simp only [Nat.zero_mul, Nat.add_zero, Nat.mod_eq_of_lt hc] at hsel
    obtain ⟨it, hit, hs⟩ := (selectableAt_true_iff items c).1 hsel
    refine ⟨0, Nat.le_refl 0, ?_, ?_, ?_⟩
    · simp only [Nat.zero_mul, Nat.add_zero, Nat.mod_eq_of_lt hc]
      exact skipLoop_stop next items c iter it (by rw [index_natCast]; exact hit) hs
    · simpa only [Nat.zero_mul, Nat.add_zero, Nat.mod_eq_of_lt hc] using hsel
    · intro i hi
      omega
  | succ d ih =>
    intro c iter hc hiter hsel
    cases hcs : selectableAt items c with
    | true =>
      obtain ⟨it, hit, hs⟩ := (selectableAt_true_iff items c).1 hcs
      refine ⟨0, Nat.zero_le _, ?_, ?_, ?_⟩
      · simp only [Nat.zero_mul, Nat.add_zero, Nat.mod_eq_of_lt hc]
        exact skipLoop_stop next items c iter it (by rw [index_natCast]; exact hit) hs
      · simpa only [Nat.zero_mul, Nat.add_zero, Nat.mod_eq_of_lt hc] using hcs
      · intro i hi
        omega
    | false =>
      have hget : items[c]? = some (items.get ⟨c, hc⟩) := List.getElem?_eq_getElem hc
      have hns : (items.get ⟨c, hc⟩).Selectable = false := by
        have := hcs
        unfold selectableAt at this
        rw [hget] at this
        exact this
      have hmod : ∀ k : Nat, ((c + a) % items.length + k * a) % items.length
          = (c + (k + 1) * a) % items.length := by
        intro k
        rw [Nat.mod_add_mod, Nat.succ_mul]
        congr 1
        omega
      have hlt : (c + a) % items.length < items.length := Nat.mod_lt _ (by omega)
      obtain ⟨j, hj, hrun, hjs, hmin⟩ := ih ((c + a) % items.length) (iter + 1) hlt (by omega)
        (by rw [hmod]; exact hsel)
      refine ⟨j + 1, by omega, ?_, ?_, ?_⟩
      · rw [skipLoop_step next items c _ iter _ (by rw [index_natCast]; exact hget) hns
          (by omega) (hnext c hc), hrun, hmod]
      · rw [← hmod]
        exact hjs
      · intro i hi
        cases i with
        | zero => simpa only [Nat.zero_mul, Nat.add_zero, Nat.mod_eq_of_lt hc] using hcs
        | succ i =>
          rw [← hmod]
          exact hmin i (by omega)

/-- Going down reaches every row within fewer than `n` steps. -/
theorem reach_down (n c s : Nat) (hc : c < n) (hs : s < n) :
    ∃ d, d < n ∧ (c + d * 1) % n = s := by
  refine ⟨(s + n - c) % n, Nat.mod_lt _ (by omega), ?_⟩
  rw [Nat.mul_one, Nat.add_mod_mod]
  have : c + (s + n - c) = s + n := by omega
  rw [this, Nat.add_mod_right, Nat.mod_eq_of_lt hs]

/-- Going up reaches every row within fewer than `n` steps. -/
theorem reach_up (n c s : Nat) (hc : c < n) (hs : s < n) :
    ∃ d, d < n ∧ (c + d * (n - 1)) % n = s := by
  refine ⟨(c + n - s) % n, Nat.mod_lt _ (by omega), ?_⟩
  have key : (c + (c + n - s) % n * (n - 1) + (c + n - s) % n) % n
      = (s + (c + n - s) % n) % n := by
    have e1 : c + (c + n - s) % n * (n - 1) + (c + n - s) % n = c + (c + n - s) % n * n := by
      generalize (c + n - s) % n = d
      obtain ⟨k, rfl⟩ : ∃ k, n = k + 1 := ⟨n - 1, by omega⟩
      rw [Nat.add_sub_cancel, Nat.mul_succ, Nat.add_assoc]
    rw [e1, Nat.add_mul_mod_self_right, Nat.add_mod_mod]
    have : s + (c + n - s) = c + n := by omega
    rw [this, Nat.add_mod_right]
  have h := Nat.ModEq.add_right_cancel' _ key
  have h2 : (c + (c + n - s) % n * (n - 1)) % n = s % n := h
  rw [h2, Nat.mod_eq_of_lt hs]

/-! ## The first selectable row -/

theorem firstSelectable_ge (items : List MenuItem) : -1 ≤ firstSelectable items := by
  induction items with
  | nil => simp [firstSelectable]
  | cons x xs ih =>
    unfold firstSelectable
    split
    · omega
    · split <;> omega

theorem firstSelectable_lt (items : List MenuItem) :
    firstSelectable items < (items.length : Int) := by
  induction items with
  | nil => simp [firstSelectable]
  | cons x xs ih =>
    unfold firstSelectable
    simp only [List.length_cons, Nat.cast_add, Nat.cast_one]
    split
    · omega
    · split <;> omega

theorem firstSelectable_eq_neg_one (items : List MenuItem) :
    firstSelectable items = -1 ↔ ∀ it ∈ items, it.Selectable = false := by
  induction items with
  | nil => simp [firstSelectable]
  | cons x xs ih =>
    have hge := firstSelectable_ge xs
    unfold firstSelectable
    cases hx : x.Selectable with
    | true => simp [hx]
    | false =>
      simp only [Bool.false_eq_true, if_false, List.mem_cons, forall_eq_or_imp, hx, true_and]
      rw [← ih]
      split
      · simp [*]
      · constructor
        · intro h
          omega
        · intro h
          contradiction

/-- When a selectable row exists `firstSelectable` is a selectable row with none before it. -/
theorem firstSelectable_spec (items : List MenuItem) (h : firstSelectable items ≠ -1) :
    ∃ i : Nat, firstSelectable items = (i : Int) ∧ selectableAt items i = true ∧
      ∀ j, j < i → selectableAt items j = false := by
  induction items with
  | nil => simp [firstSelectable] at h
  | cons x xs ih =>
    unfold firstSelectable at h ⊢
    cases hx : x.Selectable with
    | true =>
      refine ⟨0, by simp, by simp [selectableAt, hx], ?_⟩
      intro j hj
      omega
    | false =>
      simp only [hx, Bool.false_eq_true, if_false] at h ⊢
      by_cases hr : firstSelectable xs = -1
      · simp [hr] at h
      · obtain ⟨i, hi, hs, hmin⟩ := ih hr
        refine ⟨i + 1, by simp [hr, hi], by simpa [selectableAt] using hs, ?_⟩
        intro j hj
        cases j with
        | zero => simp [selectableAt, hx]
        | succ j =>
          have := hmin j (by omega)
          simpa [selectableAt] using this

theorem firstSelectable_cons (x : MenuItem) (xs : List MenuItem) :
    firstSelectable (x :: xs) =
      if x.Selectable then 0
      else if firstSelectable xs = -1 then -1 else firstSelectable xs + 1 := by
  rw [firstSelectable]

theorem firstSelectable_append (items : List MenuItem) (it : MenuItem) :
    firstSelectable (items ++ [it]) =
      if firstSelectable items = -1 then
        (if it.Selectable then (items.length : Int) else -1)
      else firstSelectable items := by
  induction items with
  | nil =>
    cases h : it.Selectable <;> simp [firstSelectable, h]
  | cons x xs ih =>
    have hge := firstSelectable_ge xs
    rw [List.cons_append, firstSelectable_cons, firstSelectable_cons, ih]
    simp only [List.length_cons, Nat.cast_add, Nat.cast_one]
    cases hx : x.Selectable with
    | true => simp
    | false =>
      simp only [Bool.false_eq_true, if_false]
      by_cases hr : firstSelectable xs = -1
      · simp only [hr, if_true]
        cases it.Selectable
        · simp
        · have : ¬ ((xs.length : Int) = -1) := by omega
          simp [this]
      · have : ¬ (firstSelectable xs + 1 = -1) := by omega
        simp [hr, this]

/-! ## Built menus -/

theorem build_snoc (p : String) (cs : List Call) (c : Call) :
    build p (cs ++ [c]) = Call.apply (build p cs) c := by
  simp [build, List.foldl_append]

theorem apply_items (m : Menu) (c : Call) :
    (Call.apply m c).MenuItems = m.MenuItems ++ [c.toItem] := by
  cases c with
  | item option id =>
    simp only [Call.apply, AddItem, Call.toItem]
    split <;> rfl
  | hint text => rfl

theorem apply_prompt (m : Menu) (c : Call) : (Call.apply m c).Prompt = m.Prompt := by
  cases c with
  | item option id =>
    simp only [Call.apply, AddItem]
    split <;> rfl
  | hint text => rfl

theorem apply_cursor (m : Menu) (c : Call) :
    (Call.apply m c).CursorPos =
      if m.CursorPos = -1 then (if c.isItem then (m.MenuItems.length : Int) else -1)
      else m.CursorPos := by
  cases c with
  | item option id =>
    simp only [Call.apply, AddItem, Call.isItem]
    by_cases h : m.CursorPos = -1
    · simp [h]
    · simp [h]
  | hint text =>
    simp only [Call.apply, AddHint, Call.isItem]
    by_cases h : m.CursorPos = -1
    · simp [h]
    · simp [h]

theorem build_items (p : String) (cs : List Call) :
    (build p cs).MenuItems = cs.map Call.toItem := by
  induction cs using List.reverseRecOn with
  | nil => rfl
  | append_singleton cs c ih => rw [build_snoc, apply_items, ih]; simp

theorem build_prompt (p : String) (cs : List Call) : (build p cs).Prompt = p := by
  induction cs using List.reverseRecOn with
  | nil => rfl
  | append_singleton cs c ih => rw [build_snoc, apply_prompt, ih]

theorem toItem_selectable (c : Call) : c.toItem.Selectable = c.isItem := by
  cases c <;> rfl

theorem build_cursor (p : String) (cs : List Call) :
    (build p cs).CursorPos = firstSelectable (build p cs).MenuItems := by
  induction cs using List.reverseRecOn with
  | nil => rfl
  | append_singleton cs c ih =>
    rw [build_snoc, apply_cursor, apply_items, firstSelectable_append, ← ih,
      toItem_selectable]

/-! ## One navigation key -/

theorem navigate_of_selectable (next : List MenuItem → Int → Option Int) (m : Menu)
    (c0 : Nat) (hnext : next m.MenuItems m.CursorPos = some (c0 : Int))
    (hsel : selectableAt m.MenuItems c0 = true) :
    navigate next m = some { m with CursorPos := (c0 : Int) } := by
  obtain ⟨it, hit, hs⟩ := (selectableAt_true_iff _ _).1 hsel
  unfold navigate
  rw [hnext]
  simp only
  rw [skipLoop_stop next m.MenuItems c0 0 it (by rw [index_natCast]; exact hit) hs]

/-- With the cursor on row `c` and a selectable row somewhere, a navigation key
that moves by `a` rows modulo the length stops on the first selectable row it meets. -/
theorem navigate_finds (next : List MenuItem → Int → Option Int) (m : Menu) (a : Nat)
    (hnext : ∀ c : Nat, c < m.MenuItems.length →
      next m.MenuItems (c : Int) = some (((c + a) % m.MenuItems.length : Nat) : Int))
    (hreach : ∀ c s : Nat, c < m.MenuItems.length → s < m.MenuItems.length →
      ∃ d, d < m.MenuItems.length ∧ (c + d * a) % m.MenuItems.length = s)
    (c : Nat) (hc : m.CursorPos = (c : Int)) (hlt : c < m.MenuItems.length)
    (s : Nat) (hs : selectableAt m.MenuItems s = true) :
    ∃ j, j < m.MenuItems.length ∧
      navigate next m
        = some { m with CursorPos := (((c + (j + 1) * a) % m.MenuItems.length : Nat) : Int) } ∧
      selectableAt m.MenuItems ((c + (j + 1) * a) % m.MenuItems.length) = true ∧
      ∀ i, i < j →
        selectableAt m.MenuItems ((c + (i + 1) * a) % m.MenuItems.length) = false := by
  have hn : 0 < m.MenuItems.length := by omega
  have hlt0 : (c + a) % m.MenuItems.length < m.MenuItems.length := Nat.mod_lt _ hn
  have hmod : ∀ k : Nat, ((c + a) % m.MenuItems.length + k * a) % m.MenuItems.length
      = (c + (k + 1) * a) % m.MenuItems.length := by
    intro k
    rw [Nat.mod_add_mod, Nat.succ_mul]
    congr 1
    omega
  obtain ⟨d, hd, hds⟩ := hreach _ s hlt0 (selectableAt_lt _ _ hs)
  obtain ⟨j, hj, hrun, hjs, hmin⟩ := skipLoop_finds next m.MenuItems a hnext d
    ((c + a) % m.MenuItems.length) 0 hlt0 (by omega) (by rw [hds]; exact hs)
  refine ⟨j, by omega, ?_, ?_, ?_⟩
  · unfold navigate
    rw [hc, hnext c hlt]
    simp only
    rw [hrun, hmod]
  · rw [← hmod]
    exact hjs
  · intro i hi
    rw [← hmod]
    exact hmin i hi

theorem handleKey_up (g : Goterm) (m : Menu) :
    handleKey g m up =
      match navigate cursorUp m with
      | none => .panic
      | some m1 => .again m1 (renderMenuItems g m1 true) := by
  simp [handleKey, up, escape, enter]

theorem handleKey_down (g : Goterm) (m : Menu) :
    handleKey g m down =
      match navigate cursorDown m with
      | none => .panic
      | some m1 => .again m1 (renderMenuItems g m1 true) := by
  simp [handleKey, up, down, escape, enter]

theorem handleKey_escape (g : Goterm) (m : Menu) :
    handleKey g m escape = .ret "" m "\r\n" := by
  simp [handleKey]

theorem handleKey_enter (g : Goterm) (m : Menu) :
    handleKey g m enter =
      match index m.MenuItems m.CursorPos with
      | none => .panic
      | some menuItem =>
        .ret menuItem.ID { m with CursorPos := -1 }
          (renderMenuItems g { m with CursorPos := -1 } true ++ "\r\n") := by
  simp [handleKey, escape, enter]

/-- A key code other than Escape, Enter, up and down matches no case of the switch. -/
theorem handleKey_other (g : Goterm) (m : Menu) (key : Nat) (h1 : key ≠ escape)
    (h2 : key ≠ enter) (h3 : key ≠ up) (h4 : key ≠ down) :
    handleKey g m key = .again m "" := by
  simp [handleKey, h1, h2, h3, h4]

/-- An arrow key on a menu whose cursor is on a row and that has a selectable row
leaves the cursor on a selectable row and changes nothing else. -/
theorem handleKey_arrow (g : Goterm) (m : Menu) (key : Nat) (hk : key = up ∨ key = down)
    (c : Nat) (hc : m.CursorPos = (c : Int)) (hlt : c < m.MenuItems.length)
    (s : Nat) (hs : selectableAt m.MenuItems s = true) :
    ∃ c1 : Nat, selectableAt m.MenuItems c1 = true ∧
      handleKey g m key = .again { m with CursorPos := (c1 : Int) }
        (renderMenuItems g { m with CursorPos := (c1 : Int) } true) := by
  have hn : 0 < m.MenuItems.length := by omega
  rcases hk with rfl | rfl
  · obtain ⟨j, _, hnav, hsel, _⟩ := navigate_finds cursorUp m (m.MenuItems.length - 1)
      (fun c _ => cursorUp_natCast m.MenuItems c hn)
      (fun c s hc hs => reach_up _ c s hc hs) c hc hlt s hs
    exact ⟨_, hsel, by rw [handleKey_up, hnav]⟩
  · obtain ⟨j, _, hnav, hsel, _⟩ := navigate_finds cursorDown m 1
      (fun c _ => cursorDown_natCast m.MenuItems c hn)
      (fun c s hc hs => reach_down _ c s hc hs) c hc hlt s hs
    exact ⟨_, hsel, by rw [handleKey_down, hnav]⟩

/-! ## The loop on several keys -/

theorem displayLoop_append (g : Goterm) (ks ks2 : List Nat) :
    ∀ (m : Menu) (out : String) (m1 : Menu) (out1 : String),
      displayLoop g m out ks = .awaiting m1 out1 →
      displayLoop g m out (ks ++ ks2) = displayLoop g m1 out1 ks2 := by
  induction ks with
  | nil =>
    intro m out m1 out1 h
    simp only [displayLoop, Run.awaiting.injEq] at h
    obtain ⟨rfl, rfl⟩ := h
    rfl
  | cons k ks ih =>
    intro m out m1 out1 h
    simp only [displayLoop, List.cons_append] at h ⊢
    cases hk : handleKey g m k with
    | again m2 o =>
      rw [hk] at h
      exact ih m2 (out ++ o) m1 out1 h
    | ret v m2 o =>
      rw [hk] at h
      simp at h
    | panic =>
      rw [hk] at h
      simp at h

/-- Arrow keys keep the loop reading, the rows and the prompt as they are, and the
cursor on a selectable row. -/
theorem displayLoop_arrows (g : Goterm) (ks : List Nat)
    (hks : ∀ k ∈ ks, k = up ∨ k = down) :
    ∀ (m : Menu) (out : String) (c : Nat), m.CursorPos = (c : Int) →
      selectableAt m.MenuItems c = true →
      ∃ (c1 : Nat) (out1 : String),
        displayLoop g m out ks = .awaiting { m with CursorPos := (c1 : Int) } out1 ∧
        selectableAt m.MenuItems c1 = true := by
  induction ks with
  | nil =>
    intro m out c hc hs
    refine ⟨c, out, ?_, hs⟩
    rw [← hc]
    rfl
  | cons k ks ih =>
    intro m out c hc hs
    obtain ⟨c1, hs1, hstep⟩ := handleKey_arrow g m k (hks k (List.mem_cons_self _ _)) c hc
      (selectableAt_lt _ _ hs) c hs
    obtain ⟨c2, out2, hrun, hs2⟩ := ih (fun k hk => hks k (List.mem_cons_of_mem _ hk))
      { m with CursorPos := (c1 : Int) }
      (out ++ renderMenuItems g { m with CursorPos := (c1 : Int) } true) c1 rfl hs1
    refine ⟨c2, out2, ?_, hs2⟩
    simp only [displayLoop, hstep]
    exact hrun

theorem displayStart_nonempty (g : Goterm) (m : Menu) (h : m.MenuItems ≠ []) :
    (displayStart g m).1 = m := by
  have : ¬ m.MenuItems.length = 0 := by
    intro h0
    exact h (List.length_eq_zero.1 h0)
  simp [displayStart, this]

theorem displayStart_empty (g : Goterm) (m : Menu) (h : m.MenuItems = []) :
    (displayStart g m).1 = AddHint m "" := by
  simp [displayStart, h]

theorem build_selectableAt_cursor (p : String) (cs : List Call)
    (hsel : ∃ c ∈ cs, c.isItem = true) :
    ∃ c : Nat, (build p cs).CursorPos = (c : Int) ∧
      selectableAt (build p cs).MenuItems c = true ∧
      ∀ j, j < c → selectableAt (build p cs).MenuItems j = false := by
  have hne : firstSelectable (build p cs).MenuItems ≠ -1 := by
    intro h
    rw [firstSelectable_eq_neg_one, build_items] at h
    obtain ⟨c, hc, hi⟩ := hsel
    have := h c.toItem (List.mem_map_of_mem _ hc)
    rw [toItem_selectable, hi] at this
    exact Bool.noConfusion this
  obtain ⟨i, hi, hs, hmin⟩ := firstSelectable_spec _ hne
  exact ⟨i, by rw [build_cursor, hi], hs, hmin⟩

theorem mod_step (n c a k : Nat) : ((c + a) % n + k * a) % n = (c + (k + 1) * a) % n := by
  rw [Nat.mod_add_mod, Nat.succ_mul]
  congr 1
  omega

/-- The row reached by `k` Up keys from row `0`. -/
theorem up_mod (n k : Nat) (hn : 0 < n) : (0 + k * (n - 1)) % n = (n - k % n) % n := by
  have hk : k % n < n := Nat.mod_lt _ hn
  have key : (0 + k * (n - 1) + k) % n = (n - k % n + k) % n := by
    have e1 : 0 + k * (n - 1) + k = k * n := by
      obtain ⟨j, rfl⟩ : ∃ j, n = j + 1 := ⟨n - 1, by omega⟩
      rw [Nat.add_sub_cancel, Nat.mul_succ, Nat.zero_add]
    have e2 : (n - k % n + k) % n = (n - k % n + k % n) % n := (Nat.add_mod_mod _ _ _).symm
    have e3 : n - k % n + k % n = n := by omega
    rw [e1, e2, e3, Nat.mul_mod_left, Nat.mod_self]
  exact Nat.ModEq.add_right_cancel' k key

theorem selectableAt_of_all (items : List MenuItem)
    (hall : ∀ it ∈ items, it.Selectable = true) (i : Nat) (hi : i < items.length) :
    selectableAt items i = true := by
  rw [selectableAt_true_iff]
  exact ⟨items.get ⟨i, hi⟩, List.getElem?_eq_getElem hi, hall _ (List.get_mem _ _ _)⟩

theorem handleKey_down_of_selectable (g : Goterm) (m : Menu) (c : Nat)
    (hc : m.CursorPos = (c : Int)) (hn : 0 < m.MenuItems.length)
    (hs : selectableAt m.MenuItems ((c + 1) % m.MenuItems.length) = true) :
    handleKey g m down
      = .again { m with CursorPos := (((c + 1) % m.MenuItems.length : Nat) : Int) }
          (renderMenuItems g
            { m with CursorPos := (((c + 1) % m.MenuItems.length : Nat) : Int) } true) := by
  rw [handleKey_down, navigate_of_selectable cursorDown m _
    (by rw [hc]; exact cursorDown_natCast _ c hn) hs]

theorem handleKey_up_of_selectable (g : Goterm) (m : Menu) (c : Nat)
    (hc : m.CursorPos = (c : Int)) (hn : 0 < m.MenuItems.length)
    (hs : selectableAt m.MenuItems ((c + (m.MenuItems.length - 1)) % m.MenuItems.length) = true) :
    handleKey g m up
      = .again
          { m with CursorPos :=
              (((c + (m.MenuItems.length - 1)) % m.MenuItems.length : Nat) : Int) }
          (renderMenuItems g
            { m with CursorPos :=
                (((c + (m.MenuItems.length - 1)) % m.MenuItems.length : Nat) : Int) } true) := by
  rw [handleKey_up, navigate_of_selectable cursorUp m _
    (by rw [hc]; exact cursorUp_natCast _ c hn) hs]

theorem displayLoop_cons_again (g : Goterm) (m m1 : Menu) (out o : String) (key : Nat)
    (rest : List Nat) (h : handleKey g m key = .again m1 o) :
    displayLoop g m out (key :: rest) = displayLoop g m1 (out ++ o) rest := by
  simp only [displayLoop, h]

/-- The same key `k` times, when each press moves the cursor by `a` rows modulo
the number of rows. -/
theorem displayLoop_replicate (g : Goterm) (key a : Nat) (items : List MenuItem)
    (hstep : ∀ (m : Menu) (c : Nat), m.MenuItems = items → m.CursorPos = (c : Int) →
      c < items.length →
      ∃ o, handleKey g m key
        = .again { m with CursorPos := (((c + a) % items.length : Nat) : Int) } o)
    (rest : List Nat) :
    ∀ (k : Nat) (m : Menu) (out : String) (c : Nat), m.MenuItems = items →
      m.CursorPos = (c : Int) → c < items.length →
      ∃ out1, displayLoop g m out (List.replicate k key ++ rest)
        = displayLoop g { m with CursorPos := (((c + k * a) % items.length : Nat) : Int) }
            out1 rest := by
  intro k
  induction k with
  | zero =>
    intro m out c _ hc hlt
    refine ⟨out, ?_⟩
    simp only [List.replicate_zero, List.nil_append, Nat.zero_mul, Nat.add_zero,
      Nat.mod_eq_of_lt hlt, ← hc]
  | succ k ih =>
    intro m out c hm hc hlt
    obtain ⟨o, ho⟩ := hstep m c hm hc hlt
    have hlt1 : (c + a) % items.length < items.length := Nat.mod_lt _ (by omega)
    obtain ⟨out1, h1⟩ := ih { m with CursorPos := (((c + a) % items.length : Nat) : Int) }
      (out ++ o) ((c + a) % items.length) hm rfl hlt1
    refine ⟨out1, ?_⟩
    rw [List.replicate_succ, List.cons_append, displayLoop_cons_again g m _ out o key _ ho,
      h1, mod_step]

theorem itemCalls_items (p : String) (its : List (String × String)) :
    (build p (itemCalls its)).MenuItems
      = its.map fun x => ({ Text := x.1, ID := x.2, Selectable := true } : MenuItem) := by
  rw [build_items, itemCalls, List.map_map]
  rfl

theorem itemCalls_cursor (p : String) (its : List (String × String)) (h : 0 < its.length) :
    (build p (itemCalls its)).CursorPos = 0 := by
  rw [build_cursor, itemCalls_items]
  cases its with
  | nil => simp at h
  | cons x xs => rw [List.map_cons, firstSelectable_cons]; rfl

/-- On a menu of selectable items only, with the cursor on row `0`, `k` presses of a
key that moves by `a` rows followed by Enter return the id of row `(0 + k * a) % N`. -/
theorem replicate_then_enter (g : Goterm) (p : String) (its : List (String × String))
    (key a k : Nat) (h : 0 < its.length)
    (hstep : ∀ (m : Menu) (c : Nat), m.MenuItems = (build p (itemCalls its)).MenuItems →
      m.CursorPos = (c : Int) → c < (build p (itemCalls its)).MenuItems.length →
      ∃ o, handleKey g m key = .again { m with CursorPos :=
        (((c + a) % (build p (itemCalls its)).MenuItems.length : Nat) : Int) } o) :
    (Display g (build p (itemCalls its)) (List.replicate k key ++ [enter])).value?
      = some (its.get ⟨(0 + k * a) % its.length, Nat.mod_lt _ h⟩).2 := by
  have hlen : (build p (itemCalls its)).MenuItems.length = its.length := by
    rw [itemCalls_items, List.length_map]
  have hne : (build p (itemCalls its)).MenuItems ≠ [] := by
    intro h0
    rw [h0] at hlen
    simp at hlen
    omega
  obtain ⟨out1, hrun⟩ := displayLoop_replicate g key a _ hstep [enter] k
    (build p (itemCalls its)) (displayStart g (build p (itemCalls its))).2 0 rfl
    (itemCalls_cursor p its h) (by omega)
  unfold Display
  rw [displayStart_nonempty g _ hne, hrun]
  have hidx : index (build p (itemCalls its)).MenuItems
      (((0 + k * a) % (build p (itemCalls its)).MenuItems.length : Nat) : Int)
      = some { Text := (its.get ⟨(0 + k * a) % its.length, Nat.mod_lt _ h⟩).1,
               ID := (its.get ⟨(0 + k * a) % its.length, Nat.mod_lt _ h⟩).2,
               Selectable := true } := by
    rw [index_natCast, hlen, itemCalls_items, List.getElem?_map,
      List.getElem?_eq_getElem (Nat.mod_lt _ h)]
    rfl
  simp only [displayLoop, handleKey_enter, hidx, Run.value?]

theorem all_selectable_itemCalls (p : String) (its : List (String × String)) :
    ∀ it ∈ (build p (itemCalls its)).MenuItems, it.Selectable = true := by
  intro it hit
  rw [itemCalls_items, List.mem_map] at hit
  obtain ⟨x, _, rfl⟩ := hit
  rfl

/-! ## The skip loop with its iteration count -/

theorem skipLoop_eq_iter (next : List MenuItem → Int → Option Int) (items : List MenuItem) :
    ∀ (k : Nat) (c : Int) (iter : Nat), items.length - iter ≤ k →
      skipLoop next items c iter = (skipLoopIter next items c iter).map Prod.fst := by
  intro k
  induction k with
  | zero =>
    intro c iter hk
    rw [skipLoop, skipLoopIter]
    cases index items c with
    | none => rfl
    | some it =>
      have : ¬ iter < items.length := by omega
      simp [this]
  | succ k ih =>
    intro c iter hk
    rw [skipLoop, skipLoopIter]
    cases index items c with
    | none => rfl
    | some it =>
      by_cases hcond : it.Selectable = false ∧ iter < items.length
      · simp only [hcond, and_self, dite_true]
        cases next items c with
        | none => rfl
        | some c1 => exact ih c1 (iter + 1) (by omega)
      · simp [hcond]

/-- From a row in range the skip loop never fails: it ends on a row in range after
at most `len` runs of its body. -/
theorem skipLoopIter_in_range (next : List MenuItem → Int → Option Int)
    (items : List MenuItem) (a : Nat)
    (hnext : ∀ c : Nat, c < items.length →
      next items (c : Int) = some (((c + a) % items.length : Nat) : Int)) :
    ∀ (k c iter : Nat), c < items.length → iter ≤ items.length →
      items.length - iter ≤ k →
      ∃ c1 n1 : Nat, skipLoopIter next items (c : Int) iter = some ((c1 : Int), n1) ∧
        c1 < items.length ∧ iter ≤ n1 ∧ n1 ≤ items.length := by
  intro k
  induction k with
  | zero =>
    intro c iter hc hi hk
    refine ⟨c, iter, ?_, hc, Nat.le_refl _, hi⟩
    rw [skipLoopIter, index_natCast, List.getElem?_eq_getElem hc]
    have : ¬ iter < items.length := by omega
    simp [this]
  | succ k ih =>
    intro c iter hc hi hk
    by_cases hcond : (items.get ⟨c, hc⟩).Selectable = false ∧ iter < items.length
    · have hlt : (c + a) % items.length < items.length := Nat.mod_lt _ (by omega)
      obtain ⟨c1, n1, hrun, hc1, hn1, hn1'⟩ := ih ((c + a) % items.length) (iter + 1) hlt
        (by omega) (by omega)
      refine ⟨c1, n1, ?_, hc1, by omega, hn1'⟩
      rw [skipLoopIter, index_natCast, List.getElem?_eq_getElem hc]
      have hcond' : items[c].Selectable = false ∧ iter < items.length := hcond
      simp only [hcond', and_self, dite_true, hnext c hc]
      exact hrun
    · refine ⟨c, iter, ?_, hc, Nat.le_refl _, hi⟩
      rw [skipLoopIter, index_natCast, List.getElem?_eq_getElem hc]
      have hcond' : ¬ (items[c].Selectable = false ∧ iter < items.length) := hcond
      simp only [hcond', dite_false]

theorem cursorDown_in_range (items : List MenuItem) (c : Int) (hn : 0 < items.length)
    (hlo : -1 ≤ c) (_hhi : c < (items.length : Int)) :
    ∃ c0 : Nat, cursorDown items c = some (c0 : Int) ∧ c0 < items.length := by
  have e : c + 1 = (((c + 1).toNat : Nat) : Int) := by omega
  refine ⟨(c + 1).toNat % items.length, ?_, Nat.mod_lt _ hn⟩
  unfold cursorDown
  rw [e]
  exact goRem_natCast _ _ hn

theorem cursorUp_in_range (items : List MenuItem) (c : Int) (hn : 0 < items.length)
    (hlo : -1 ≤ c) (_hhi : c < (items.length : Int)) :
    ∃ c0 : Nat, cursorUp items c = some (c0 : Int) ∧ c0 < items.length := by
  by_cases h1 : c + (items.length : Int) - 1 < 0
  · have hlen : items.length = 1 := by omega
    refine ⟨0, ?_, hn⟩
    unfold cursorUp goRem
    rw [hlen]
    simp
  · have e : c + (items.length : Int) - 1
        = (((c + (items.length : Int) - 1).toNat : Nat) : Int) := by omega
    refine ⟨(c + (items.length : Int) - 1).toNat % items.length, ?_, Nat.mod_lt _ hn⟩
    unfold cursorUp
    rw [e]
    exact goRem_natCast _ _ hn

/-- An arrow key on a menu with a row and `-1 ≤ CursorPos < len` does not fail: the
skip loop runs its body at most `len` times and the cursor ends on a row. -/
theorem handleKey_arrow_in_range (g : Goterm) (m : Menu) (key : Nat)
    (next : List MenuItem → Int → Option Int)
    (hk : (key = up ∧ next = cursorUp) ∨ (key = down ∧ next = cursorDown))
    (hn : 0 < m.MenuItems.length) (hlo : -1 ≤ m.CursorPos)
    (hhi : m.CursorPos < (m.MenuItems.length : Int)) :
    ∃ c0 c1 n1 : Nat, next m.MenuItems m.CursorPos = some (c0 : Int) ∧
      skipLoopIter next m.MenuItems (c0 : Int) 0 = some ((c1 : Int), n1) ∧
      n1 ≤ m.MenuItems.length ∧ c1 < m.MenuItems.length ∧
      handleKey g m key = .again { m with CursorPos := (c1 : Int) }
        (renderMenuItems g { m with CursorPos := (c1 : Int) } true) := by
  rcases hk with ⟨rfl, rfl⟩ | ⟨rfl, rfl⟩
  · obtain ⟨c0, h0, hc0⟩ := cursorUp_in_range m.MenuItems m.CursorPos hn hlo hhi
    obtain ⟨c1, n1, hrun, hc1, _, hn1⟩ := skipLoopIter_in_range cursorUp m.MenuItems
      (m.MenuItems.length - 1) (fun c _ => cursorUp_natCast m.MenuItems c hn)
      m.MenuItems.length c0 0 hc0 (Nat.zero_le _) (by omega)
    refine ⟨c0, c1, n1, h0, hrun, hn1, hc1, ?_⟩
    rw [handleKey_up]
    unfold navigate
    rw [h0]
    simp only
    rw [skipLoop_eq_iter cursorUp m.MenuItems m.MenuItems.length _ 0 (by omega), hrun]
    rfl
  · obtain ⟨c0, h0, hc0⟩ := cursorDown_in_range m.MenuItems m.CursorPos hn hlo hhi
    obtain ⟨c1, n1, hrun, hc1, _, hn1⟩ := skipLoopIter_in_range cursorDown m.MenuItems
      1 (fun c _ => cursorDown_natCast m.MenuItems c hn)
      m.MenuItems.length c0 0 hc0 (Nat.zero_le _) (by omega)
    refine ⟨c0, c1, n1, h0, hrun, hn1, hc1, ?_⟩
    rw [handleKey_down]
    unfold navigate
    rw [h0]
    simp only
    rw [skipLoop_eq_iter cursorDown m.MenuItems m.MenuItems.length _ 0 (by omega), hrun]
    rfl

/-- On rows that are all non-selectable the skip loop runs its body until `iter`
reaches `len`, which brings the cursor back to the row it started from. -/
theorem skipLoopIter_all_hints (next : List MenuItem → Int → Option Int)
    (items : List MenuItem) (a : Nat)
    (hnext : ∀ c : Nat, c < items.length →
      next items (c : Int) = some (((c + a) % items.length : Nat) : Int))
    (hall : ∀ it ∈ items, it.Selectable = false) :
    ∀ (k c iter : Nat), c < items.length → iter + k = items.length →
      skipLoopIter next items (c : Int) iter
        = some ((((c + k * a) % items.length : Nat) : Int), items.length) := by
  intro k
  induction k with
  | zero =>
    intro c iter hc hk
    rw [skipLoopIter, index_natCast, List.getElem?_eq_getElem hc]
    have : ¬ iter < items.length := by omega
    simp only [this, and_false, dite_false, Nat.zero_mul, Nat.add_zero, Nat.mod_eq_of_lt hc]
    rw [show iter = items.length by omega]
  | succ k ih =>
    intro c iter hc hk
    have hlt : (c + a) % items.length < items.length := Nat.mod_lt _ (by omega)
    have hns : items[c].Selectable = false := hall _ (List.getElem_mem _)
    have hi : iter < items.length := by omega
    rw [skipLoopIter, index_natCast, List.getElem?_eq_getElem hc]
    simp only [hns, hi, and_self, dite_true, hnext c hc]
    rw [ih ((c + a) % items.length) (iter + 1) hlt (by omega), mod_step]

theorem navigate_all_hints (next : List MenuItem → Int → Option Int) (m : Menu) (a c0 : Nat)
    (hnext : ∀ c : Nat, c < m.MenuItems.length →
      next m.MenuItems (c : Int) = some (((c + a) % m.MenuItems.length : Nat) : Int))
    (hall : ∀ it ∈ m.MenuItems, it.Selectable = false)
    (h0 : next m.MenuItems m.CursorPos = some (c0 : Int)) (hc0 : c0 < m.MenuItems.length) :
    skipLoopIter next m.MenuItems (c0 : Int) 0 = some ((c0 : Int), m.MenuItems.length) ∧
    navigate next m = some { m with CursorPos := (c0 : Int) } := by
  have hrun := skipLoopIter_all_hints next m.MenuItems a hnext hall m.MenuItems.length c0 0
    hc0 (Nat.zero_add _)
  have e : (c0 + m.MenuItems.length * a) % m.MenuItems.length = c0 := by
    rw [Nat.add_mul_mod_self_left, Nat.mod_eq_of_lt hc0]
  rw [e] at hrun
  refine ⟨hrun, ?_⟩
  unfold navigate
  rw [h0]
  simp only
  rw [skipLoop_eq_iter next m.MenuItems m.MenuItems.length _ 0 (by omega), hrun]
  rfl

/-! ## Invariants of a session -/

/-- While the loop keeps reading, a cursor that is on a selectable row stays on a
selectable row, whatever the keys, and nothing else changes. -/
theorem displayLoop_selectable (g : Goterm) (ks : List Nat) :
    ∀ (m : Menu) (out : String) (c : Nat), m.CursorPos = (c : Int) →
      selectableAt m.MenuItems c = true →
      ∀ (m1 : Menu) (out1 : String), displayLoop g m out ks = .awaiting m1 out1 →
      ∃ c1 : Nat, m1 = { m with CursorPos := (c1 : Int) } ∧
        selectableAt m.MenuItems c1 = true := by
  induction ks with
  | nil =>
    intro m out c hc hs m1 out1 h
    simp only [displayLoop, Run.awaiting.injEq] at h
    obtain ⟨rfl, rfl⟩ := h
    exact ⟨c, by rw [← hc], hs⟩
  | cons k ks ih =>
    intro m out c hc hs m1 out1 h
    by_cases hk : k = up ∨ k = down
    · obtain ⟨c1, hs1, hstep⟩ := handleKey_arrow g m k hk c hc (selectableAt_lt _ _ hs) c hs
      rw [displayLoop_cons_again g m _ out _ k ks hstep] at h
      obtain ⟨c2, hm, hs2⟩ := ih { m with CursorPos := (c1 : Int) } _ c1 rfl hs1 m1 out1 h
      exact ⟨c2, hm, hs2⟩
    · by_cases he : k = escape
      · subst he
        simp [displayLoop, handleKey_escape] at h
      · by_cases hen : k = enter
        · subst hen
          simp only [displayLoop, handleKey_enter] at h
          cases hidx : index m.MenuItems m.CursorPos with
          | none => rw [hidx] at h; simp at h
          | some it => rw [hidx] at h; simp at h
        · have hstep := handleKey_other g m k he hen (fun h => hk (Or.inl h))
            (fun h => hk (Or.inr h))
          rw [displayLoop_cons_again g m _ out _ k ks hstep] at h
          exact ih m _ c hc hs m1 out1 h

/-- A session on a menu with a row and `-1 ≤ CursorPos < len` keeps the rows and the
prompt, and keeps the cursor in that range, as long as it does not fail. -/
theorem displayLoop_range (g : Goterm) (ks : List Nat) :
    ∀ (m : Menu) (out : String), 0 < m.MenuItems.length → -1 ≤ m.CursorPos →
      m.CursorPos < (m.MenuItems.length : Int) →
      ∀ m1 : Menu, (displayLoop g m out ks).menu? = some m1 →
      m1.MenuItems = m.MenuItems ∧ m1.Prompt = m.Prompt ∧ -1 ≤ m1.CursorPos ∧
        m1.CursorPos < (m.MenuItems.length : Int) := by
  induction ks with
  | nil =>
    intro m out hn hlo hhi m1 h
    simp only [displayLoop, Run.menu?, Option.some.injEq] at h
    subst h
    exact ⟨rfl, rfl, hlo, hhi⟩
  | cons k ks ih =>
    intro m out hn hlo hhi m1 h
    by_cases hk : k = up ∨ k = down
    · have hk' : (k = up ∧ (if k = up then cursorUp else cursorDown) = cursorUp) ∨
          (k = down ∧ (if k = up then cursorUp else cursorDown) = cursorDown) := by
        rcases hk with rfl | rfl
        · exact Or.inl ⟨rfl, by simp⟩
        · exact Or.inr ⟨rfl, by simp [up, down]⟩
      obtain ⟨c0, c1, n1, _, _, _, hc1, hstep⟩ :=
        handleKey_arrow_in_range g m k _ hk' hn hlo hhi
      rw [displayLoop_cons_again g m _ out _ k ks hstep] at h
      have := ih { m with CursorPos := (c1 : Int) } _ hn (by simp only; omega)
        (by simp only; omega) m1 h
      exact this
    · by_cases he : k = escape
      · subst he
        simp only [displayLoop, handleKey_escape, Run.menu?, Option.some.injEq] at h
        subst h
        exact ⟨rfl, rfl, hlo, hhi⟩
      · by_cases hen : k = enter
        · subst hen
          simp only [displayLoop, handleKey_enter] at h
          cases hidx : index m.MenuItems m.CursorPos with
          | none => rw [hidx] at h; simp [Run.menu?] at h
          | some it =>
            rw [hidx] at h
            simp only [Run.menu?, Option.some.injEq] at h
            subst h
            exact ⟨rfl, rfl, Int.le_refl _, by simp only; omega⟩
        · have hstep := handleKey_other g m k he hen (fun h => hk (Or.inl h))
            (fun h => hk (Or.inr h))
          rw [displayLoop_cons_again g m _ out _ k ks hstep] at h
          exact ih m _ hn hlo hhi m1 h

theorem displayStart_range (g : Goterm) (m : Menu) (hlo : -1 ≤ m.CursorPos)
    (hhi : m.CursorPos < (m.MenuItems.length : Int)) :
    0 < (displayStart g m).1.MenuItems.length ∧ -1 ≤ (displayStart g m).1.CursorPos ∧
      (displayStart g m).1.CursorPos < ((displayStart g m).1.MenuItems.length : Int) := by
  by_cases h : m.MenuItems = []
  · rw [displayStart_empty g m h]
    simp only [AddHint, h, List.nil_append, List.length_singleton]
    rw [h] at hhi
    simp only [List.length_nil] at hhi
    refine ⟨by omega, hlo, ?_⟩
    have : ((0 : Nat) : Int) = 0 := rfl
    omega
  · rw [displayStart_nonempty g m h]
    have : 0 < m.MenuItems.length := List.length_pos.2 h
    exact ⟨this, hlo, hhi⟩

theorem displayStart_items (g : Goterm) (m : Menu) :
    (displayStart g m).1.MenuItems = m.MenuItems ∨
    (displayStart g m).1.MenuItems
      = m.MenuItems ++ [{ Text := "", ID := "", Selectable := false }] := by
  by_cases h : m.MenuItems = []
  · rw [displayStart_empty g m h]
    exact Or.inr rfl
  · rw [displayStart_nonempty g m h]
    exact Or.inl rfl

/-- Every reachable menu has `-1 ≤ CursorPos < len(MenuItems)`. -/
theorem reachable_range (m : Menu) (hr : Reachable m) :
    -1 ≤ m.CursorPos ∧ m.CursorPos < (m.MenuItems.length : Int) := by
  induction hr with
  | newMenu prompt => simp [NewMenu]
  | @addItem m option id _ ih =>
    obtain ⟨hlo, hhi⟩ := ih
    by_cases h : m.CursorPos = -1
    · simp only [AddItem, h, if_true, List.length_append, List.length_singleton]
      push_cast
      omega
    · simp only [AddItem, h, if_false, List.length_append, List.length_singleton]
      push_cast
      omega
  | @addHint m hint _ ih =>
    obtain ⟨hlo, hhi⟩ := ih
    simp only [AddHint, List.length_append, List.length_singleton]
    push_cast
    omega
  | @display m g ks value m1 out _ hrun ih =>
    obtain ⟨hlo, hhi⟩ := ih
    obtain ⟨hn, hlo0, hhi0⟩ := displayStart_range g m hlo hhi
    have hm : (displayLoop g (displayStart g m).1 (displayStart g m).2 ks).menu? = some m1 := by
      have : Display g m ks = displayLoop g (displayStart g m).1 (displayStart g m).2 ks := rfl
      rw [← this, hrun]
      rfl
    obtain ⟨hitems, _, h1, h2⟩ := displayLoop_range g ks _ _ hn hlo0 hhi0 m1 hm
    rw [hitems]
    exact ⟨h1, h2⟩

/-- In a reachable menu a non-selectable row has the empty `ID`. -/
theorem reachable_hint_id (m : Menu) (hr : Reachable m) :
    ∀ it ∈ m.MenuItems, it.Selectable = false → it.ID = "" := by
  induction hr with
  | newMenu prompt =>
    intro it hit
    simp [NewMenu] at hit
  | @addItem m option id _ ih =>
    intro it hit hs
    have hitems : (AddItem m option id).MenuItems
        = m.MenuItems ++ [{ Text := option, ID := id, Selectable := true }] := by
      simp only [AddItem]
      split <;> rfl
    rw [hitems, List.mem_append, List.mem_singleton] at hit
    rcases hit with hit | rfl
    · exact ih it hit hs
    · exact Bool.noConfusion hs
  | @addHint m hint _ ih =>
    intro it hit hs
    simp only [AddHint, List.mem_append, List.mem_singleton] at hit
    rcases hit with hit | rfl
    · exact ih it hit hs
    · rfl
  | @display m g ks value m1 out hr0 hrun ih =>
    intro it hit hs
    obtain ⟨hlo, hhi⟩ := reachable_range m hr0
    obtain ⟨hn, hlo0, hhi0⟩ := displayStart_range g m hlo hhi
    have hm : (displayLoop g (displayStart g m).1 (displayStart g m).2 ks).menu? = some m1 := by
      have : Display g m ks = displayLoop g (displayStart g m).1 (displayStart g m).2 ks := rfl
      rw [← this, hrun]
      rfl
    obtain ⟨hitems, _, _, _⟩ := displayLoop_range g ks _ _ hn hlo0 hhi0 m1 hm
    rw [hitems] at hit
    rcases displayStart_items g m with h | h
    · rw [h] at hit
      exact ih it hit hs
    · rw [h, List.mem_append, List.mem_singleton] at hit
      rcases hit with hit | rfl
      · exact ih it hit hs
      · rfl

/-- A state in which a session waits for a key is reachable: Escape ends the
session there. -/
theorem reachable_awaiting (g : Goterm) (m m1 : Menu) (pre : List Nat) (out1 : String)
    (hr : Reachable m) (h : Display g m pre = .awaiting m1 out1) : Reachable m1 := by
  refine Reachable.display g (pre ++ [escape]) "" m1 (out1 ++ "\r\n" ++ "\x1b[?25h") hr ?_
  unfold Display at h ⊢
  rw [displayLoop_append g pre [escape] _ _ m1 out1 h]
  simp only [displayLoop, handleKey_escape]

theorem handleKey_all_hints (g : Goterm) (m : Menu) (key : Nat)
    (next : List MenuItem → Int → Option Int)
    (hk : (key = up ∧ next = cursorUp) ∨ (key = down ∧ next = cursorDown))
    (hall : ∀ it ∈ m.MenuItems, it.Selectable = false) (c0 : Nat)
    (h0 : next m.MenuItems m.CursorPos = some (c0 : Int)) (hc0 : c0 < m.MenuItems.length) :
    handleKey g m key = .again { m with CursorPos := (c0 : Int) }
      (renderMenuItems g { m with CursorPos := (c0 : Int) } true) := by
  have hn : 0 < m.MenuItems.length := by omega
  rcases hk with ⟨rfl, rfl⟩ | ⟨rfl, rfl⟩
  · rw [handleKey_up, (navigate_all_hints cursorUp m (m.MenuItems.length - 1) c0
      (fun c _ => cursorUp_natCast m.MenuItems c hn) hall h0 hc0).2]
  · rw [handleKey_down, (navigate_all_hints cursorDown m 1 c0
      (fun c _ => cursorDown_natCast m.MenuItems c hn) hall h0 hc0).2]

/-! ## The nearest selectable row -/

/-- The row `e ≤ n` steps up from row `c`. -/
theorem up_steps (n c e : Nat) (he : e ≤ n) : (c + e * (n - 1)) % n = (c + n - e) % n := by
  have key : (c + e * (n - 1) + e) % n = (c + n - e + e) % n := by
    have e1 : c + e * (n - 1) + e = c + e * n := by
      rcases Nat.eq_zero_or_pos n with h0 | hpos
      · subst h0
        have : e = 0 := by omega
        subst this
        simp
      · obtain ⟨j, rfl⟩ : ∃ j, n = j + 1 := ⟨n - 1, by omega⟩
        rw [Nat.add_sub_cancel, Nat.mul_succ, Nat.add_assoc]
    have e2 : c + n - e + e = c + n := by omega
    rw [e1, e2, Nat.add_mul_mod_self_right, Nat.add_mod_right]
  exact Nat.ModEq.add_right_cancel' e key

/-- Down from a selectable row `c` stops `d` rows further, on the first selectable
row after `c` in cyclic order. -/
theorem handleKey_down_nearest (g : Goterm) (m : Menu) (c : Nat)
    (hc : m.CursorPos = (c : Int)) (hs : selectableAt m.MenuItems c = true) :
    ∃ d, 1 ≤ d ∧ d ≤ m.MenuItems.length ∧
      handleKey g m down
        = .again { m with CursorPos := (((c + d) % m.MenuItems.length : Nat) : Int) }
            (renderMenuItems g
              { m with CursorPos := (((c + d) % m.MenuItems.length : Nat) : Int) } true) ∧
      selectableAt m.MenuItems ((c + d) % m.MenuItems.length) = true ∧
      ∀ e, 1 ≤ e → e < d →
        selectableAt m.MenuItems ((c + e) % m.MenuItems.length) = false := by
  have hlt := selectableAt_lt _ _ hs
  have hn : 0 < m.MenuItems.length := by omega
  obtain ⟨j, hj, hnav, hsel, hmin⟩ := navigate_finds cursorDown m 1
    (fun c _ => cursorDown_natCast m.MenuItems c hn)
    (fun c s hc hs => reach_down _ c s hc hs) c hc hlt c hs
  simp only [Nat.mul_one] at hnav hsel hmin
  refine ⟨j + 1, by omega, by omega, by rw [handleKey_down, hnav], hsel, ?_⟩
  intro e h1 h2
  have := hmin (e - 1) (by omega)
  rwa [show e - 1 + 1 = e by omega] at this

/-- Up from a selectable row `c` stops `d` rows back, on the first selectable row
before `c` in cyclic order. -/
theorem handleKey_up_nearest (g : Goterm) (m : Menu) (c : Nat)
    (hc : m.CursorPos = (c : Int)) (hs : selectableAt m.MenuItems c = true) :
    ∃ d, 1 ≤ d ∧ d ≤ m.MenuItems.length ∧
      handleKey g m up
        = .again
            { m with CursorPos :=
                (((c + m.MenuItems.length - d) % m.MenuItems.length : Nat) : Int) }
            (renderMenuItems g
              { m with CursorPos :=
                  (((c + m.MenuItems.length - d) % m.MenuItems.length : Nat) : Int) } true) ∧
      selectableAt m.MenuItems ((c + m.MenuItems.length - d) % m.MenuItems.length) = true ∧
      ∀ e, 1 ≤ e → e < d →
        selectableAt m.MenuItems ((c + m.MenuItems.length - e) % m.MenuItems.length)
          = false := by
  have hlt := selectableAt_lt _ _ hs
  have hn : 0 < m.MenuItems.length := by omega
  obtain ⟨j, hj, hnav, hsel, hmin⟩ := navigate_finds cursorUp m (m.MenuItems.length - 1)
    (fun c _ => cursorUp_natCast m.MenuItems c hn)
    (fun c s hc hs => reach_up _ c s hc hs) c hc hlt c hs
  rw [up_steps _ c (j + 1) (by omega)] at hnav hsel
  refine ⟨j + 1, by omega, by omega, by rw [handleKey_up, hnav], hsel, ?_⟩
  intro e h1 h2
  have := hmin (e - 1) (by omega)
  rw [show e - 1 + 1 = e by omega, up_steps _ c e (by omega)] at this
  exact this

theorem menu_with_cursor (m : Menu) (x : Nat) (c : Nat) (hc : m.CursorPos = (c : Int))
    (hx : x = c) :
    ({ Prompt := m.Prompt, CursorPos := (x : Int), MenuItems := m.MenuItems } : Menu) = m := by
  cases m
  simp_all

theorem down_up_arith (n c d e : Nat) (he : e ≤ d) (hen : e ≤ n) :
    ((c + d) % n + n - e) % n = (c + (d - e)) % n := by
  have e1 : (c + d) % n + n - e = (c + d) % n + (n - e) := by omega
  have e2 : c + d + (n - e) = c + (d - e) + n := by omega
  rw [e1, Nat.mod_add_mod, e2, Nat.add_mod_right]

theorem up_down_arith (n c d e : Nat) (he : e ≤ d) (hd : d ≤ n) :
    ((c + n - d) % n + e) % n = (c + n - (d - e)) % n := by
  have e1 : c + n - d + e = c + n - (d - e) := by omega
  rw [Nat.mod_add_mod, e1]

/-- Repeated Down keys bring the cursor from a selectable row to any selectable row. -/
theorem reach_by_down (g : Goterm) :
    ∀ (d : Nat) (m : Menu) (out : String) (c s : Nat), m.CursorPos = (c : Int) →
      selectableAt m.MenuItems c = true → selectableAt m.MenuItems s = true →
      (c + d) % m.MenuItems.length = s →
      ∃ (k : Nat) (out1 : String), displayLoop g m out (List.replicate k down)
        = .awaiting { m with CursorPos := (s : Int) } out1 := by
  intro d
  induction d using Nat.strong_induction_on with
  | _ d ih =>
    intro m out c s hc hcs hss hd
    have hlt := selectableAt_lt _ _ hcs
    rcases Nat.eq_zero_or_pos d with h0 | hpos
    · subst h0
      rw [Nat.add_zero, Nat.mod_eq_of_lt hlt] at hd
      refine ⟨0, out, ?_⟩
      rw [menu_with_cursor m s c hc hd.symm]
      rfl
    · obtain ⟨d1, h1, _, hstep, hs1, hmin⟩ := handleKey_down_nearest g m c hc hcs
      have hle : d1 ≤ d := by
        by_contra hgt
        have := hmin d hpos (by omega)
        rw [hd, hss] at this
        exact Bool.noConfusion this
      have hd' : ((c + d1) % m.MenuItems.length + (d - d1)) % m.MenuItems.length = s := by
        rw [Nat.mod_add_mod, show c + d1 + (d - d1) = c + d by omega, hd]
      obtain ⟨k, out1, hrun⟩ := ih (d - d1) (by omega)
        { m with CursorPos := (((c + d1) % m.MenuItems.length : Nat) : Int) }
        (out ++ renderMenuItems g
          { m with CursorPos := (((c + d1) % m.MenuItems.length : Nat) : Int) } true)
        ((c + d1) % m.MenuItems.length) s rfl hs1 hss hd'
      refine ⟨k + 1, out1, ?_⟩
      rw [List.replicate_succ, displayLoop_cons_again g m _ out _ down _ hstep]
      exact hrun

/-! ## Rendered text -/

theorem lineBreaks_append (s t : String) :
    lineBreaks (s ++ t) = lineBreaks s + lineBreaks t := by
  simp [lineBreaks, List.count_append]

theorem digitChar_ne_newline (d : Nat) (hd : d < 10) : Nat.digitChar d ≠ '\n' := by
  interval_cases d <;> decide

theorem toDigitsCore_no_newline (fuel : Nat) :
    ∀ (n : Nat) (ds : List Char), (∀ c ∈ ds, c ≠ '\n') →
      ∀ c ∈ Nat.toDigitsCore 10 fuel n ds, c ≠ '\n' := by
  induction fuel with
  | zero =>
    intro n ds hds c hc
    exact hds c hc
  | succ fuel ih =>
    intro n ds hds c hc
    have hcons : ∀ x ∈ Nat.digitChar (n % 10) :: ds, x ≠ '\n' := by
      intro x hx
      rcases List.mem_cons.1 hx with rfl | hx
      · exact digitChar_ne_newline _ (Nat.mod_lt _ (by decide))
      · exact hds x hx
    simp only [Nat.toDigitsCore] at hc
    split at hc
    · exact hcons c hc
    · exact ih _ _ hcons c hc

theorem lineBreaks_repr (n : Nat) : lineBreaks (Nat.repr n) = 0 := by
  unfold lineBreaks Nat.repr Nat.toDigits
  rw [List.count_eq_zero]
  intro h
  exact toDigitsCore_no_newline _ _ _ (fun c hc => by simp at hc) _ h rfl

theorem lineBreaks_cursorUpSeq (m : Menu) (redraw : Bool) :
    lineBreaks (cursorUpSeq m redraw) = 0 := by
  unfold cursorUpSeq
  split
  · rw [lineBreaks_append, lineBreaks_append, lineBreaks_repr]
    rfl
  · rfl

theorem renderMenuItems_eq (g : Goterm) (m : Menu) (redraw : Bool) :
    renderMenuItems g m redraw = cursorUpSeq m redraw ++ renderRows g m 0 m.MenuItems := rfl

theorem renderRows_cons (g : Goterm) (m : Menu) (idx : Nat) (x : MenuItem)
    (xs : List MenuItem) :
    renderRows g m idx (x :: xs) = renderRow g m idx x ++ renderRows g m (idx + 1) xs := rfl

theorem renderRows_append (g : Goterm) (m : Menu) (xs ys : List MenuItem) :
    ∀ idx : Nat, renderRows g m idx (xs ++ ys)
      = renderRows g m idx xs ++ renderRows g m (idx + xs.length) ys := by
  induction xs with
  | nil =>
    intro idx
    simp [renderRows]
  | cons x xs ih =>
    intro idx
    rw [List.cons_append, renderRows_cons, renderRows_cons, ih, String.append_assoc,
      List.length_cons, show idx + 1 + xs.length = idx + (xs.length + 1) by omega]

/-- The text of one row, with the line break that ends it taken apart. -/
theorem renderRow_eq (g : Goterm) (m : Menu) (idx : Nat) (it : MenuItem) :
    renderRow g m idx it =
      (if it.Selectable then
        if (idx : Int) = m.CursorPos then
          "\r" ++ g.Color "> " g.YELLOW ++ " " ++ g.Color it.Text g.YELLOW
        else "\r" ++ "  " ++ " " ++ it.Text
      else "\r" ++ g.Color it.Text g.CYAN) ++ rowBreak m idx := by
  unfold renderRow rowBreak
  by_cases h1 : (idx : Int) = (m.MenuItems.length : Int) - 1 <;>
    by_cases h2 : it.Selectable = true <;>
    by_cases h3 : (idx : Int) = m.CursorPos <;>
    simp only [h1, h2, h3, if_true, if_false, String.append_assoc, String.append_empty] <;>
    rfl

theorem lineBreaks_rowBody (g : Goterm) (m : Menu) (idx : Nat) (it : MenuItem)
    (htext : lineBreaks it.Text = 0)
    (hg : ∀ (s : String) (c : Nat), lineBreaks s = 0 → lineBreaks (g.Color s c) = 0) :
    lineBreaks (if it.Selectable then
        if (idx : Int) = m.CursorPos then
          "\r" ++ g.Color "> " g.YELLOW ++ " " ++ g.Color it.Text g.YELLOW
        else "\r" ++ "  " ++ " " ++ it.Text
      else "\r" ++ g.Color it.Text g.CYAN) = 0 := by
  have h1 : lineBreaks "\r" = 0 := rfl
  have h2 : lineBreaks " " = 0 := rfl
  have h3 : lineBreaks "  " = 0 := rfl
  have h4 : lineBreaks "> " = 0 := rfl
  split
  · split
    · simp only [lineBreaks_append, h1, h2, hg _ _ h4, hg _ _ htext]
    · simp only [lineBreaks_append, h1, h2, h3, htext]
  · simp only [lineBreaks_append, h1, hg _ _ htext]

theorem lineBreaks_renderRows (g : Goterm) (m : Menu)
    (hg : ∀ (s : String) (c : Nat), lineBreaks s = 0 → lineBreaks (g.Color s c) = 0) :
    ∀ (rest : List MenuItem) (idx : Nat), idx + rest.length = m.MenuItems.length →
      (∀ it ∈ rest, lineBreaks it.Text = 0) →
      lineBreaks (renderRows g m idx rest) = rest.length - 1 := by
  intro rest
  induction rest with
  | nil =>
    intro idx _ _
    rfl
  | cons it tl ih =>
    intro idx hlen htext
    simp only [List.length_cons] at hlen
    have hbody := lineBreaks_rowBody g m idx it (htext it (List.mem_cons_self _ _)) hg
    have htl := ih (idx + 1) (by omega) (fun x hx => htext x (List.mem_cons_of_mem _ hx))
    rw [renderRows_cons, lineBreaks_append, renderRow_eq, lineBreaks_append, hbody, htl]
    unfold rowBreak
    by_cases hlast : (idx : Int) = (m.MenuItems.length : Int) - 1
    · have : tl.length = 0 := by omega
      simp only [hlast, if_true, List.length_cons, this]
      rfl
    · have : 0 < tl.length := by omega
      simp only [hlast, if_false, List.length_cons]
      have h1 : lineBreaks "\n" = 1 := rfl
      rw [h1]
      omega

/-- The scenario of the specification: hints `A` and `B` only; Down, Down, Enter
ends the session with the empty string. -/
theorem hintsAB_down_down_enter :
    (Display ansi hintsAB [down, down, enter]).value? = some "" := by
  have h1 := handleKey_all_hints ansi hintsAB down cursorDown (Or.inr ⟨rfl, rfl⟩)
    (by decide) 0 (by decide) (by decide)
  have h2 := handleKey_all_hints ansi { hintsAB with CursorPos := ((0 : Nat) : Int) } down
    cursorDown (Or.inr ⟨rfl, rfl⟩) (by decide) 1 (by decide) (by decide)
  have hi : index hintsAB.MenuItems 1
      = some { Text := "B", ID := "", Selectable := false } := by
    decide
  have e : Display ansi hintsAB [down, down, enter]
      = displayLoop ansi hintsAB (displayStart ansi hintsAB).2 [down, down, enter] := rfl
  rw [e, displayLoop_cons_again ansi hintsAB _ _ _ down [down, enter] h1,
    displayLoop_cons_again ansi _ _ _ _ down [enter] h2]
  simp only [displayLoop, handleKey_enter, Nat.cast_one, hi]
  rfl

/-! ## The claims -/

/-- C1: on a menu built from `NewMenu` by `AddItem`/`AddHint` calls of which at
least one is `AddItem`, after any finite sequence of up/down keys (the empty one
included) the `Display` loop is still reading keys, the rows are those of the
built menu, `0 ≤ CursorPos < len(MenuItems)` and `MenuItems[CursorPos]` is
selectable. -/
theorem cursor_selectable_after_arrows (g : Goterm) (p : String) (cs : List Call)
    (ks : List Nat) (hsel : ∃ c ∈ cs, c.isItem = true)
    (hks : ∀ k ∈ ks, k = up ∨ k = down) :
    ∃ (m : Menu) (out : String), Display g (build p cs) ks = .awaiting m out ∧
      m.MenuItems = (build p cs).MenuItems ∧
      0 ≤ m.CursorPos ∧ m.CursorPos < (m.MenuItems.length : Int) ∧
      ∃ it, index m.MenuItems m.CursorPos = some it ∧ it.Selectable = true := by
  obtain ⟨c, hc, hs, _⟩ := build_selectableAt_cursor p cs hsel
  have hne : (build p cs).MenuItems ≠ [] := by
    intro h
    have := selectableAt_lt _ _ hs
    rw [h] at this
    simp at this
  obtain ⟨c1, out1, hrun, hs1⟩ := displayLoop_arrows g ks hks (build p cs)
    (displayStart g (build p cs)).2 c hc hs
  have hlt := selectableAt_lt _ _ hs1
  obtain ⟨it, hit, hsit⟩ := (selectableAt_true_iff _ _).1 hs1
  refine ⟨{ build p cs with CursorPos := (c1 : Int) }, out1, ?_, rfl, ?_, ?_, it, ?_, hsit⟩
  · unfold Display
    rw [displayStart_nonempty g _ hne]
    exact hrun
  · simp
  · simp only
    omega
  · simp only
    rw [index_natCast]
    exact hit

theorem cursor_selectable_after_arrows_witness :
    (∃ c ∈ [Call.hint "Pick one", Call.item "Red" "r", Call.hint "-", Call.item "Blue" "b"],
        c.isItem = true) ∧
    (∀ k ∈ [down, up, up], k = up ∨ k = down) ∧
    ∃ (m : Menu) (out : String),
      Display ansi (build "Colour"
        [Call.hint "Pick one", Call.item "Red" "r", Call.hint "-", Call.item "Blue" "b"])
        [down, up, up] = .awaiting m out ∧
      m.MenuItems = (build "Colour"
        [Call.hint "Pick one", Call.item "Red" "r", Call.hint "-",
          Call.item "Blue" "b"]).MenuItems ∧
      0 ≤ m.CursorPos ∧ m.CursorPos < (m.MenuItems.length : Int) ∧
      ∃ it, index m.MenuItems m.CursorPos = some it ∧ it.Selectable = true :=
  ⟨by decide, by decide,
    cursor_selectable_after_arrows ansi "Colour" _ _ (by decide) (by decide)⟩

/-- C2: the Enter key as the first key of `Display` on the empty menu, and on a
menu of hints only, evaluates `MenuItems[-1]`: the index is out of range and the
session ends in a runtime panic. -/
theorem enter_first_on_hint_only_menu_panics :
    Display ansi (NewMenu "Colour") [enter] = .panicked ∧
    Display ansi (build "Colour" [Call.hint "A", Call.hint "B"]) [enter] = .panicked := by
  decide

/-- C3: on a menu built by appending `N ≥ 1` selectable items to `NewMenu`,
`Display` with Enter as the first key returns the id of the first appended item. -/
theorem enter_first_returns_first_id (g : Goterm) (p : String)
    (its : List (String × String)) (rest : List Nat) (h : its ≠ []) :
    (Display g (build p (itemCalls its)) (enter :: rest)).value? = some (its.head h).2 := by
  obtain ⟨x, xs, rfl⟩ := List.exists_cons_of_ne_nil h
  have hitems : (build p (itemCalls (x :: xs))).MenuItems
      = { Text := x.1, ID := x.2, Selectable := true } :: (itemCalls xs).map Call.toItem := by
    rw [build_items]
    rfl
  have hcur : (build p (itemCalls (x :: xs))).CursorPos = 0 := by
    rw [build_cursor, hitems, firstSelectable_cons]
    rfl
  have hne : (build p (itemCalls (x :: xs))).MenuItems ≠ [] := by
    rw [hitems]
    exact List.cons_ne_nil _ _
  unfold Display
  rw [displayStart_nonempty g _ hne]
  have hidx : index ({ Text := x.1, ID := x.2, Selectable := true }
      :: (itemCalls xs).map Call.toItem) 0
      = some { Text := x.1, ID := x.2, Selectable := true } := by
    simp [index]
  simp only [displayLoop, handleKey_enter, hcur, hitems, hidx, Run.value?, List.head_cons]

theorem enter_first_returns_first_id_witness :
    [("Red", "r"), ("Green", "g"), ("Blue", "b")] ≠ [] ∧
    (Display ansi colours [enter]).value? = some "r" :=
  ⟨by decide,
    enter_first_returns_first_id ansi "Colour" [("Red", "r"), ("Green", "g"), ("Blue", "b")] []
      (by decide)⟩

/-- C4, as stated, fails: Escape as the first key on the empty menu returns `""`,
but the menu comes back with the blank hint `Display` appended, so `MenuItems` is
not what it was before the call. -/
theorem escape_first_on_empty_menu_changes_items :
    (Display ansi (NewMenu "Colour") [escape]).value? = some "" ∧
    (Display ansi (NewMenu "Colour") [escape]).menu?
      = some { Prompt := "Colour", CursorPos := -1,
               MenuItems := [{ Text := "", ID := "", Selectable := false }] } ∧
    (NewMenu "Colour").MenuItems = [] ∧
    (Display ansi (NewMenu "Colour") [escape]).menu? ≠ some (NewMenu "Colour") := by
  decide

/-- C4, amended: when Escape is read, `Display` returns `""` and the menu is the
one held just before the Escape was read; when Escape is the first key that is the
menu passed to `Display` if it had a row, and that menu with one blank hint
appended if it had none. -/
theorem escape_returns_empty_keeps_menu (g : Goterm) (m : Menu) (pre rest : List Nat)
    (m1 : Menu) (out1 : String) (h : Display g m pre = .awaiting m1 out1) :
    (∃ out, Display g m (pre ++ escape :: rest) = .returned "" m1 out) ∧
    (∃ out, Display g m (escape :: rest)
      = .returned "" (if m.MenuItems.length = 0 then AddHint m "" else m) out) := by
  constructor
  · unfold Display at h ⊢
    rw [displayLoop_append g pre (escape :: rest) _ _ m1 out1 h]
    refine ⟨out1 ++ "\r\n" ++ "\x1b[?25h", ?_⟩
    simp only [displayLoop, handleKey_escape]
  · unfold Display
    refine ⟨(displayStart g m).2 ++ "\r\n" ++ "\x1b[?25h", ?_⟩
    simp only [displayLoop, handleKey_escape]
    rfl

theorem escape_returns_empty_keeps_menu_witness :
    Display ansi colours [down]
      = .awaiting { Prompt := "Colour", CursorPos := 1, MenuItems := colours.MenuItems }
          ((displayStart ansi colours).2 ++ renderMenuItems ansi
            { Prompt := "Colour", CursorPos := 1, MenuItems := colours.MenuItems } true) ∧
    (∃ out, Display ansi colours ([down] ++ escape :: [enter])
      = .returned "" { Prompt := "Colour", CursorPos := 1, MenuItems := colours.MenuItems }
          out) ∧
    (∃ out, Display ansi colours (escape :: [enter])
      = .returned "" (if colours.MenuItems.length = 0 then AddHint colours "" else colours)
          out) :=
  have hpre : Display ansi colours [down]
      = .awaiting { Prompt := "Colour", CursorPos := 1, MenuItems := colours.MenuItems }
          ((displayStart ansi colours).2 ++ renderMenuItems ansi
            { Prompt := "Colour", CursorPos := 1, MenuItems := colours.MenuItems } true) :=
    displayLoop_cons_again ansi colours _ _ _ down []
      (handleKey_down_of_selectable ansi colours 0 (by decide) (by decide) (by decide))
  ⟨hpre, escape_returns_empty_keeps_menu ansi colours [down] [enter] _ _ hpre⟩

/-- C5: on a menu of `N ≥ 1` selectable items and no hints, added in order with
`AddItem`, `Display` with `k` Down keys and then Enter returns the id of the item
at index `k mod N`, and with `k` Up keys and then Enter the id of the item at index
`(N - k mod N) mod N`. -/
theorem arrows_then_enter_returns_id (g : Goterm) (p : String)
    (its : List (String × String)) (k : Nat) (h : 0 < its.length) :
    (Display g (build p (itemCalls its)) (List.replicate k down ++ [enter])).value?
      = some (its.get ⟨k % its.length, Nat.mod_lt _ h⟩).2 ∧
    (Display g (build p (itemCalls its)) (List.replicate k up ++ [enter])).value?
      = some (its.get ⟨(its.length - k % its.length) % its.length, Nat.mod_lt _ h⟩).2 := by
  have hlen : (build p (itemCalls its)).MenuItems.length = its.length := by
    rw [itemCalls_items, List.length_map]
  constructor
  · have hd := replicate_then_enter g p its down 1 k h (by
      intro m c hm hc hlt
      rw [← hm] at hlt ⊢
      exact ⟨_, handleKey_down_of_selectable g m c hc (by omega)
        (selectableAt_of_all _ (by rw [hm]; exact all_selectable_itemCalls p its) _
          (Nat.mod_lt _ (by omega)))⟩)
    simpa only [Nat.zero_add, Nat.mul_one] using hd
  · have hu := replicate_then_enter g p its up ((build p (itemCalls its)).MenuItems.length - 1)
      k h (by
      intro m c hm hc hlt
      rw [← hm] at hlt ⊢
      exact ⟨_, handleKey_up_of_selectable g m c hc (by omega)
        (selectableAt_of_all _ (by rw [hm]; exact all_selectable_itemCalls p its) _
          (Nat.mod_lt _ (by omega)))⟩)
    simpa only [hlen, up_mod its.length k h] using hu

theorem arrows_then_enter_returns_id_witness :
    0 < [("Red", "r"), ("Green", "g"), ("Blue", "b")].length ∧
    (Display ansi colours [down, enter]).value? = some "g" ∧
    (Display ansi colours [up, enter]).value? = some "b" :=
  ⟨by decide,
    arrows_then_enter_returns_id ansi "Colour" [("Red", "r"), ("Green", "g"), ("Blue", "b")] 1
      (by decide)⟩

/-- C6: on a menu whose items are all selectable, with `0 ≤ CursorPos < len`,
handling Up and then Down gives back the menu it started from, cursor included, and
so does handling Down and then Up. -/
theorem up_down_inverse (g : Goterm) (m : Menu)
    (hall : ∀ it ∈ m.MenuItems, it.Selectable = true)
    (h0 : 0 ≤ m.CursorPos) (hlt : m.CursorPos < (m.MenuItems.length : Int)) :
    (∃ m1 o1 o2, handleKey g m up = .again m1 o1 ∧ handleKey g m1 down = .again m o2) ∧
    (∃ m1 o1 o2, handleKey g m down = .again m1 o1 ∧ handleKey g m1 up = .again m o2) := by
  obtain ⟨c, hc⟩ := Int.eq_ofNat_of_zero_le h0
  have hn : 0 < m.MenuItems.length := by omega
  have hcl : c < m.MenuItems.length := by omega
  have hsel : ∀ i, selectableAt m.MenuItems (i % m.MenuItems.length) = true :=
    fun i => selectableAt_of_all _ hall _ (Nat.mod_lt _ hn)
  have hback : ∀ x : Nat, x = c →
      ({ Prompt := m.Prompt, CursorPos := (x : Int), MenuItems := m.MenuItems } : Menu) = m := by
    intro x hx
    cases m
    simp_all
  constructor
  · have hu := handleKey_up_of_selectable g m c hc hn (hsel _)
    have hd := handleKey_down_of_selectable g
      { m with CursorPos := (((c + (m.MenuItems.length - 1)) % m.MenuItems.length : Nat) : Int) }
      ((c + (m.MenuItems.length - 1)) % m.MenuItems.length) rfl hn (hsel _)
    have e : ((c + (m.MenuItems.length - 1)) % m.MenuItems.length + 1) % m.MenuItems.length
        = c := by
      rw [Nat.mod_add_mod]
      have : c + (m.MenuItems.length - 1) + 1 = c + m.MenuItems.length := by omega
      rw [this, Nat.add_mod_right, Nat.mod_eq_of_lt hcl]
    simp only [e, hback c rfl] at hd
    exact ⟨_, _, _, hu, hd⟩
  · have hd := handleKey_down_of_selectable g m c hc hn (hsel _)
    have hu := handleKey_up_of_selectable g
      { m with CursorPos := (((c + 1) % m.MenuItems.length : Nat) : Int) }
      ((c + 1) % m.MenuItems.length) rfl hn (hsel _)
    have e : ((c + 1) % m.MenuItems.length + (m.MenuItems.length - 1)) % m.MenuItems.length
        = c := by
      rw [Nat.mod_add_mod]
      have : c + 1 + (m.MenuItems.length - 1) = c + m.MenuItems.length := by omega
      rw [this, Nat.add_mod_right, Nat.mod_eq_of_lt hcl]
    simp only [e, hback c rfl] at hu
    exact ⟨_, _, _, hd, hu⟩

theorem up_down_inverse_witness :
    (∀ it ∈ colours.MenuItems, it.Selectable = true) ∧ 0 ≤ colours.CursorPos ∧
    colours.CursorPos < (colours.MenuItems.length : Int) ∧
    (∃ m1 o1 o2, handleKey ansi colours up = .again m1 o1 ∧
      handleKey ansi m1 down = .again colours o2) ∧
    (∃ m1 o1 o2, handleKey ansi colours down = .again m1 o1 ∧
      handleKey ansi m1 up = .again colours o2) :=
  ⟨by decide, by decide, by decide,
    up_down_inverse ansi colours (by decide) (by decide) (by decide)⟩

/-- C7: `getInput` on a read of 3 bytes returns the third byte when it is 65 or 66
and 0 otherwise; on a read of fewer than 3 bytes it returns the first byte. -/
theorem getInput_classifies (r : TtyRead) :
    (r.read = 3 → getInput r = if r.b2 = 65 ∨ r.b2 = 66 then r.b2 else 0) ∧
    (r.read < 3 → getInput r = r.b0) := by
  constructor
  · intro h
    by_cases h1 : r.b2 = 65
    · simp [getInput, keys, List.lookup, up, down, h, h1]
    · by_cases h2 : r.b2 = 66
      · simp [getInput, keys, List.lookup, up, down, h, h2]
      · have e1 : (r.b2 == 65) = false := by simpa using h1
        have e2 : (r.b2 == 66) = false := by simpa using h2
        simp [getInput, keys, List.lookup, up, down, h, h1, h2, e1, e2]
  · intro h
    have : ¬ r.read = 3 := by omega
    simp [getInput, this]

theorem getInput_classifies_witness :
    ((⟨27, 91, 65, 3⟩ : TtyRead).read = 3 ∧ getInput ⟨27, 91, 65, 3⟩ = up) ∧
    ((⟨27, 91, 67, 3⟩ : TtyRead).read = 3 ∧ getInput ⟨27, 91, 67, 3⟩ = 0) ∧
    ((⟨13, 0, 0, 1⟩ : TtyRead).read < 3 ∧ getInput ⟨13, 0, 0, 1⟩ = enter) :=
  ⟨⟨rfl, (getInput_classifies ⟨27, 91, 65, 3⟩).1 rfl⟩,
    ⟨rfl, (getInput_classifies ⟨27, 91, 67, 3⟩).1 rfl⟩,
    ⟨by decide, (getInput_classifies ⟨13, 0, 0, 1⟩).2 (by decide)⟩⟩

/-- C8: a read of the single byte 65 (the letter `A`) is fewer than 3 bytes and its
first byte is neither Enter nor Escape, yet `getInput` returns the up code and the
`Display` loop moves the cursor of the three-colour menu from row 0 to row 2. -/
theorem plain_byte_A_moves_cursor :
    getInput ⟨65, 0, 0, 1⟩ = up ∧ colours.CursorPos = 0 ∧
    (DisplayReads ansi colours [⟨65, 0, 0, 1⟩]).menu?
      = some { Prompt := "Colour", CursorPos := 2, MenuItems := colours.MenuItems } := by
  refine ⟨by decide, by decide, ?_⟩
  have h := handleKey_up_of_selectable ansi colours 0 (by decide) (by decide) (by decide)
  have e : DisplayReads ansi colours [⟨65, 0, 0, 1⟩]
      = displayLoop ansi colours (displayStart ansi colours).2 [up] := rfl
  rw [e, displayLoop_cons_again ansi colours _ _ _ up [] h]
  rfl

/-- C9: with `0 ≤ CursorPos < len(MenuItems)`, handling Enter returns the `ID` of
`MenuItems[CursorPos]` for the cursor held before the key, and the menu it leaves
has the same `Prompt` and `MenuItems` and `CursorPos = -1`. -/
theorem enter_returns_id_at_cursor (g : Goterm) (m : Menu)
    (h0 : 0 ≤ m.CursorPos) (hlt : m.CursorPos < (m.MenuItems.length : Int)) :
    ∃ (it : MenuItem) (out : String), index m.MenuItems m.CursorPos = some it ∧
      handleKey g m enter
        = .ret it.ID { Prompt := m.Prompt, CursorPos := -1, MenuItems := m.MenuItems } out := by
  obtain ⟨c, hc⟩ := Int.eq_ofNat_of_zero_le h0
  have hcl : c < m.MenuItems.length := by omega
  have hidx : index m.MenuItems m.CursorPos = some (m.MenuItems.get ⟨c, hcl⟩) := by
    rw [hc, index_natCast]
    exact List.getElem?_eq_getElem hcl
  refine ⟨_, renderMenuItems g { m with CursorPos := -1 } true ++ "\r\n", hidx, ?_⟩
  rw [handleKey_enter, hidx]

theorem enter_returns_id_at_cursor_witness :
    0 ≤ colours.CursorPos ∧ colours.CursorPos < (colours.MenuItems.length : Int) ∧
    ∃ (it : MenuItem) (out : String), index colours.MenuItems colours.CursorPos = some it ∧
      handleKey ansi colours enter
        = .ret it.ID { Prompt := colours.Prompt, CursorPos := -1,
                       MenuItems := colours.MenuItems } out :=
  ⟨by decide, by decide, enter_returns_id_at_cursor ansi colours (by decide) (by decide)⟩

/-- C10: after any sequence of `AddItem`/`AddHint` calls on `NewMenu(prompt)`,
`CursorPos` is the index of the first selectable item of `MenuItems` (a selectable
row with no selectable row before it), `-1` when there is none, and it is `-1`
exactly when no call was `AddItem`. -/
theorem build_cursor_first_selectable (p : String) (cs : List Call) :
    (build p cs).CursorPos = firstSelectable (build p cs).MenuItems ∧
    ((build p cs).CursorPos = -1 ↔ ∀ c ∈ cs, c.isItem = false) ∧
    ∀ i : Nat, (build p cs).CursorPos = (i : Int) ↔
      (selectableAt (build p cs).MenuItems i = true ∧
        ∀ j, j < i → selectableAt (build p cs).MenuItems j = false) := by
  have hiff : (build p cs).CursorPos = -1 ↔ ∀ c ∈ cs, c.isItem = false := by
    rw [build_cursor, firstSelectable_eq_neg_one, build_items]
    simp [toItem_selectable]
  refine ⟨build_cursor p cs, hiff, ?_⟩
  intro i
  constructor
  · intro hi
    have hne : firstSelectable (build p cs).MenuItems ≠ -1 := by
      rw [← build_cursor, hi]
      omega
    obtain ⟨i1, h1, hs, hmin⟩ := firstSelectable_spec _ hne
    have : i = i1 := by
      rw [build_cursor, h1] at hi
      omega
    subst this
    exact ⟨hs, hmin⟩
  · rintro ⟨hs, hmin⟩
    have hne : firstSelectable (build p cs).MenuItems ≠ -1 := by
      intro h
      rw [firstSelectable_eq_neg_one] at h
      obtain ⟨it, hit, hsel⟩ := (selectableAt_true_iff _ _).1 hs
      have := h it (List.getElem?_mem hit)
      rw [hsel] at this
      exact Bool.noConfusion this
    obtain ⟨i1, h1, hs1, hmin1⟩ := firstSelectable_spec _ hne
    rw [build_cursor, h1]
    rcases Nat.lt_trichotomy i i1 with hlt | heq | hgt
    · rw [hmin1 i hlt] at hs
      exact Bool.noConfusion hs
    · rw [heq]
    · rw [hmin i1 hgt] at hs1
      exact Bool.noConfusion hs1

/-- C11: `AddHint(t)` appends exactly one item, with `Text = t`, empty `ID` and
`Selectable = false`, after the existing items; the earlier items keep their
indexes, and `CursorPos` and `Prompt` are unchanged. -/
theorem addHint_appends_hint (m : Menu) (t : String) :
    (AddHint m t).MenuItems
      = m.MenuItems ++ [{ Text := t, ID := "", Selectable := false }] ∧
    (AddHint m t).MenuItems.length = m.MenuItems.length + 1 ∧
    (AddHint m t).MenuItems.take m.MenuItems.length = m.MenuItems ∧
    (AddHint m t).CursorPos = m.CursorPos ∧
    (AddHint m t).Prompt = m.Prompt := by
  refine ⟨rfl, ?_, ?_, rfl, rfl⟩
  · simp [AddHint]
  · simp [AddHint]

/-- C12, as stated, fails: on the menu of the two hints `A` and `B`, Down leaves
the cursor on row 0, the hint `A`, and Enter then returns through the Enter case
with the id of that hint, the empty string. -/
theorem enter_after_down_returns_hint :
    (Display ansi hintsAB [down]).menu?
      = some { Prompt := "Colour", CursorPos := 0, MenuItems := hintsAB.MenuItems } ∧
    index hintsAB.MenuItems 0 = some { Text := "A", ID := "", Selectable := false } ∧
    Display ansi hintsAB [down, enter]
      = .returned "" { Prompt := "Colour", CursorPos := -1, MenuItems := hintsAB.MenuItems }
          ((displayStart ansi hintsAB).2
            ++ renderMenuItems ansi
                { Prompt := "Colour", CursorPos := 0, MenuItems := hintsAB.MenuItems } true
            ++ (renderMenuItems ansi
                { Prompt := "Colour", CursorPos := -1, MenuItems := hintsAB.MenuItems } true
              ++ "\r\n")
            ++ "\x1b[?25h") := by
  have hd := handleKey_all_hints ansi hintsAB down cursorDown (Or.inr ⟨rfl, rfl⟩)
    (by decide) 0 (by decide) (by decide)
  have hi : index hintsAB.MenuItems 0 = some { Text := "A", ID := "", Selectable := false } := by
    decide
  have e1 : Display ansi hintsAB [down]
      = displayLoop ansi hintsAB (displayStart ansi hintsAB).2 [down] := rfl
  have e2 : Display ansi hintsAB [down, enter]
      = displayLoop ansi hintsAB (displayStart ansi hintsAB).2 [down, enter] := rfl
  refine ⟨?_, hi, ?_⟩
  · rw [e1, displayLoop_cons_again ansi hintsAB _ _ _ down [] hd]
    rfl
  · rw [e2, displayLoop_cons_again ansi hintsAB _ _ _ down [enter] hd]
    simp only [displayLoop, handleKey_enter, Nat.cast_zero, hi]
    rfl

/-- C12, amended: on a menu built from `NewMenu` by `AddItem`/`AddHint` calls of
which at least one is `AddItem`, whenever the Enter key is read `Display` returns
the id of the row under the cursor, and that row is selectable. -/
theorem enter_returns_selectable_item (g : Goterm) (p : String) (cs : List Call)
    (pre rest : List Nat) (m1 : Menu) (out1 : String)
    (hsel : ∃ c ∈ cs, c.isItem = true)
    (hpre : Display g (build p cs) pre = .awaiting m1 out1) :
    ∃ (it : MenuItem) (out : String),
      index m1.MenuItems m1.CursorPos = some it ∧ it.Selectable = true ∧
      m1.MenuItems = (build p cs).MenuItems ∧
      Display g (build p cs) (pre ++ enter :: rest)
        = .returned it.ID { m1 with CursorPos := -1 } out := by
  obtain ⟨c, hc, hs, _⟩ := build_selectableAt_cursor p cs hsel
  have hne : (build p cs).MenuItems ≠ [] := by
    intro h
    have := selectableAt_lt _ _ hs
    rw [h] at this
    simp at this
  unfold Display at hpre ⊢
  rw [displayStart_nonempty g _ hne] at hpre ⊢
  obtain ⟨c1, rfl, hs1⟩ := displayLoop_selectable g pre (build p cs) _ c hc hs m1 out1 hpre
  obtain ⟨it, hit, hsit⟩ := (selectableAt_true_iff _ _).1 hs1
  have hidx : index (build p cs).MenuItems (c1 : Int) = some it := by
    rw [index_natCast]
    exact hit
  refine ⟨it, out1 ++ (renderMenuItems g { build p cs with CursorPos := -1 } true ++ "\r\n")
    ++ "\x1b[?25h", hidx, hsit, rfl, ?_⟩
  rw [displayLoop_append g pre (enter :: rest) _ _ _ out1 hpre]
  simp only [displayLoop, handleKey_enter, hidx]

theorem enter_returns_selectable_item_witness :
    (∃ c ∈ itemCalls [("Red", "r"), ("Green", "g"), ("Blue", "b")], c.isItem = true) ∧
    Display ansi colours [down]
      = .awaiting { Prompt := "Colour", CursorPos := 1, MenuItems := colours.MenuItems }
          ((displayStart ansi colours).2 ++ renderMenuItems ansi
            { Prompt := "Colour", CursorPos := 1, MenuItems := colours.MenuItems } true) ∧
    ∃ (it : MenuItem) (out : String),
      index colours.MenuItems 1 = some it ∧ it.Selectable = true ∧
      colours.MenuItems = colours.MenuItems ∧
      Display ansi colours ([down] ++ enter :: [])
        = .returned it.ID { Prompt := "Colour", CursorPos := -1,
                            MenuItems := colours.MenuItems } out :=
  have hpre : Display ansi colours [down]
      = .awaiting { Prompt := "Colour", CursorPos := 1, MenuItems := colours.MenuItems }
          ((displayStart ansi colours).2 ++ renderMenuItems ansi
            { Prompt := "Colour", CursorPos := 1, MenuItems := colours.MenuItems } true) :=
    displayLoop_cons_again ansi colours _ _ _ down []
      (handleKey_down_of_selectable ansi colours 0 (by decide) (by decide) (by decide))
  ⟨by decide, hpre,
    enter_returns_selectable_item ansi "Colour"
      (itemCalls [("Red", "r"), ("Green", "g"), ("Blue", "b")]) [down] [] _ _
      (by decide) hpre⟩

/-- C13: on a reachable menu that has rows, all of them non-selectable, an Up or
Down key does not fail: the first cursor assignment lands on a row `c0`, the skip
loop runs its body `n1 ≤ len(MenuItems)` times and stops, `CursorPos` ends on a row
`c1` with `0 ≤ c1 < len(MenuItems)`, the state reached is again reachable (so the
same holds for every further navigation key), and Enter there returns the empty
string. -/
theorem hint_menu_navigation (g : Goterm) (m : Menu) (key : Nat)
    (next : List MenuItem → Int → Option Int)
    (hk : (key = up ∧ next = cursorUp) ∨ (key = down ∧ next = cursorDown))
    (hr : Reachable m) (hne : m.MenuItems ≠ [])
    (hall : ∀ it ∈ m.MenuItems, it.Selectable = false) :
    ∃ c0 c1 n1 : Nat,
      next m.MenuItems m.CursorPos = some (c0 : Int) ∧
      skipLoopIter next m.MenuItems (c0 : Int) 0 = some ((c1 : Int), n1) ∧
      n1 ≤ m.MenuItems.length ∧ c1 < m.MenuItems.length ∧
      handleKey g m key = .again { m with CursorPos := (c1 : Int) }
        (renderMenuItems g { m with CursorPos := (c1 : Int) } true) ∧
      Reachable { m with CursorPos := (c1 : Int) } ∧
      handleKey g { m with CursorPos := (c1 : Int) } enter
        = .ret "" { m with CursorPos := -1 }
            (renderMenuItems g { m with CursorPos := -1 } true ++ "\r\n") := by
  obtain ⟨hlo, hhi⟩ := reachable_range m hr
  have hn : 0 < m.MenuItems.length := List.length_pos.2 hne
  obtain ⟨c0, c1, n1, h0, hrun, hn1, hc1, hstep⟩ :=
    handleKey_arrow_in_range g m key next hk hn hlo hhi
  refine ⟨c0, c1, n1, h0, hrun, hn1, hc1, hstep, ?_, ?_⟩
  · refine reachable_awaiting g m _ [key] ((displayStart g m).2
      ++ renderMenuItems g { m with CursorPos := (c1 : Int) } true) hr ?_
    unfold Display
    rw [displayStart_nonempty g m hne]
    exact displayLoop_cons_again g m _ _ _ key [] hstep
  · have hidx : index m.MenuItems (c1 : Int) = some (m.MenuItems.get ⟨c1, hc1⟩) := by
      rw [index_natCast]
      exact List.getElem?_eq_getElem hc1
    have hmem : m.MenuItems.get ⟨c1, hc1⟩ ∈ m.MenuItems := List.get_mem _ _ _
    have hid : (m.MenuItems.get ⟨c1, hc1⟩).ID = "" :=
      reachable_hint_id m hr _ hmem (hall _ hmem)
    rw [handleKey_enter]
    simp only [hidx, hid]

theorem hint_menu_navigation_witness :
    ((down = up ∧ cursorDown = cursorUp) ∨ (down = down ∧ cursorDown = cursorDown)) ∧
    Reachable hintsAB ∧ hintsAB.MenuItems ≠ [] ∧
    (∀ it ∈ hintsAB.MenuItems, it.Selectable = false) ∧
    (∃ c0 c1 n1 : Nat,
      cursorDown hintsAB.MenuItems hintsAB.CursorPos = some (c0 : Int) ∧
      skipLoopIter cursorDown hintsAB.MenuItems (c0 : Int) 0 = some ((c1 : Int), n1) ∧
      n1 ≤ hintsAB.MenuItems.length ∧ c1 < hintsAB.MenuItems.length ∧
      handleKey ansi hintsAB down = .again { hintsAB with CursorPos := (c1 : Int) }
        (renderMenuItems ansi { hintsAB with CursorPos := (c1 : Int) } true) ∧
      Reachable { hintsAB with CursorPos := (c1 : Int) } ∧
      handleKey ansi { hintsAB with CursorPos := (c1 : Int) } enter
        = .ret "" { hintsAB with CursorPos := -1 }
            (renderMenuItems ansi { hintsAB with CursorPos := -1 } true ++ "\r\n")) ∧
    (Display ansi hintsAB [down, down, enter]).value? = some "" :=
  have hr : Reachable hintsAB :=
    Reachable.addHint "B" (Reachable.addHint "A" (Reachable.newMenu "Colour"))
  ⟨Or.inr ⟨rfl, rfl⟩, hr, by decide, by decide,
    hint_menu_navigation ansi hintsAB down cursorDown (Or.inr ⟨rfl, rfl⟩) hr (by decide)
      (by decide),
    hintsAB_down_down_enter⟩

/-- C14: for a menu with rows whose item texts hold no line break, styled by a
`goterm` that adds none, the text `renderMenuItems` prints holds exactly
`len(MenuItems) - 1` line breaks: each row is a text without line break followed by
one line break, except the last row, which is followed by none.  With `redraw` and
more than one row the text starts with the cursor-up sequence `ESC[<n>A` for
`n = len(MenuItems) - 1`; otherwise it is the rows alone. -/
theorem render_line_breaks (g : Goterm) (m : Menu) (redraw : Bool)
    (_hne : m.MenuItems ≠ []) (htext : ∀ it ∈ m.MenuItems, lineBreaks it.Text = 0)
    (hg : ∀ (s : String) (c : Nat), lineBreaks s = 0 → lineBreaks (g.Color s c) = 0) :
    lineBreaks (renderMenuItems g m redraw) = m.MenuItems.length - 1 ∧
    (∀ (i : Nat) (it : MenuItem), m.MenuItems[i]? = some it →
      ∃ body, lineBreaks body = 0 ∧
        renderRow g m i it = body ++ (if i + 1 = m.MenuItems.length then "" else "\n")) ∧
    renderMenuItems g m redraw
      = (if redraw = true ∧ 1 < m.MenuItems.length then
          "\x1b[" ++ Nat.repr (m.MenuItems.length - 1) ++ "A"
        else "") ++ renderRows g m 0 m.MenuItems ∧
    lineBreaks (renderRows g m 0 m.MenuItems) = m.MenuItems.length - 1 := by
  have hrows := lineBreaks_renderRows g m hg m.MenuItems 0 (Nat.zero_add _) htext
  refine ⟨?_, ?_, ?_, hrows⟩
  · rw [renderMenuItems_eq, lineBreaks_append, lineBreaks_cursorUpSeq, hrows, Nat.zero_add]
  · intro i it hi
    refine ⟨_, lineBreaks_rowBody g m i it (htext it (List.getElem?_mem hi)) hg, ?_⟩
    rw [renderRow_eq]
    congr 1
    unfold rowBreak
    have hlt := (List.getElem?_eq_some_iff.1 hi).1
    by_cases h : i + 1 = m.MenuItems.length
    · have : (i : Int) = (m.MenuItems.length : Int) - 1 := by omega
      simp only [h, this, if_true]
    · have : ¬ (i : Int) = (m.MenuItems.length : Int) - 1 := by omega
      simp only [h, this, if_false]
  · rw [renderMenuItems_eq]
    congr 1
    unfold cursorUpSeq
    cases redraw
    · simp
    · by_cases h : 1 < m.MenuItems.length
      · simp [h]
      · simp [h]

theorem render_line_breaks_witness :
    colours.MenuItems ≠ [] ∧ (∀ it ∈ colours.MenuItems, lineBreaks it.Text = 0) ∧
    (∀ (s : String) (c : Nat), lineBreaks s = 0 → lineBreaks (ansi.Color s c) = 0) ∧
    lineBreaks (renderMenuItems ansi colours true) = colours.MenuItems.length - 1 ∧
    (∀ (i : Nat) (it : MenuItem), colours.MenuItems[i]? = some it →
      ∃ body, lineBreaks body = 0 ∧
        renderRow ansi colours i it
          = body ++ (if i + 1 = colours.MenuItems.length then "" else "\n")) ∧
    renderMenuItems ansi colours true
      = (if true = true ∧ 1 < colours.MenuItems.length then
          "\x1b[" ++ Nat.repr (colours.MenuItems.length - 1) ++ "A"
        else "") ++ renderRows ansi colours 0 colours.MenuItems ∧
    lineBreaks (renderRows ansi colours 0 colours.MenuItems)
      = colours.MenuItems.length - 1 :=
  have hg : ∀ (s : String) (c : Nat), lineBreaks s = 0 → lineBreaks (ansi.Color s c) = 0 :=
    fun s c hs => by
      show lineBreaks ("\x1b[3" ++ Nat.repr c ++ "m" ++ s ++ "\x1b[0m") = 0
      rw [lineBreaks_append, lineBreaks_append, lineBreaks_append, lineBreaks_append,
        lineBreaks_repr, hs]
      rfl
  ⟨by decide, by decide, hg, render_line_breaks ansi colours true (by decide) (by decide) hg⟩

/-- C15: the row `renderMenuItems` prints for item `i` is `\r`, then the
highlighted marker `> ` and the highlighted text when the item is selectable and
`i = CursorPos`, two blanks and the plain text when it is selectable and
`i ≠ CursorPos`, and the hint-styled text with no indicator when it is not
selectable; the rows are printed in order after the cursor-up sequence.  With
`CursorPos = -1` no row has the marker, and that is the menu Enter redraws. -/
theorem render_cursor_marker (g : Goterm) (m : Menu) (redraw : Bool) (i : Nat)
    (it : MenuItem) (hi : m.MenuItems[i]? = some it) :
    renderMenuItems g m redraw
      = cursorUpSeq m redraw ++ renderRows g m 0 (m.MenuItems.take i) ++ renderRow g m i it
          ++ renderRows g m (i + 1) (m.MenuItems.drop (i + 1)) ∧
    (it.Selectable = true → (i : Int) = m.CursorPos →
      renderRow g m i it
        = "\r" ++ g.Color "> " g.YELLOW ++ " " ++ g.Color it.Text g.YELLOW ++ rowBreak m i) ∧
    (it.Selectable = true → (i : Int) ≠ m.CursorPos →
      renderRow g m i it = "\r" ++ "  " ++ " " ++ it.Text ++ rowBreak m i) ∧
    (it.Selectable = false →
      renderRow g m i it = "\r" ++ g.Color it.Text g.CYAN ++ rowBreak m i) ∧
    (m.CursorPos = -1 →
      renderRow g m i it
        = if it.Selectable then "\r" ++ "  " ++ " " ++ it.Text ++ rowBreak m i
          else "\r" ++ g.Color it.Text g.CYAN ++ rowBreak m i) ∧
    (∀ it0, index m.MenuItems m.CursorPos = some it0 →
      handleKey g m enter
        = .ret it0.ID { m with CursorPos := -1 }
            (renderMenuItems g { m with CursorPos := -1 } true ++ "\r\n")) := by
  have hlt := (List.getElem?_eq_some_iff.1 hi).1
  have hget : m.MenuItems[i] = it := (List.getElem?_eq_some_iff.1 hi).2
  refine ⟨?_, ?_, ?_, ?_, ?_, ?_⟩
  · have hsplit : m.MenuItems = m.MenuItems.take i ++ it :: m.MenuItems.drop (i + 1) := by
      rw [← hget, ← List.drop_eq_getElem_cons hlt, List.take_append_drop]
    have hlen : (m.MenuItems.take i).length = i := by
      rw [List.length_take]
      omega
    rw [renderMenuItems_eq, congrArg (renderRows g m 0) hsplit, renderRows_append,
      renderRows_cons, hlen, Nat.zero_add, ← String.append_assoc, ← String.append_assoc]
  · intro h1 h2
    rw [renderRow_eq]
    simp only [h1, h2, if_true]
  · intro h1 h2
    rw [renderRow_eq]
    simp only [h1, h2, if_true, if_false]
  · intro h1
    rw [renderRow_eq]
    simp only [h1, Bool.false_eq_true, if_false]
  · intro h1
    have h2 : ¬ (i : Int) = m.CursorPos := by omega
    rw [renderRow_eq]
    cases hs : it.Selectable
    · simp only [Bool.false_eq_true, if_false]
    · simp only [h2, if_true, if_false]
  · intro it0 h0
    rw [handleKey_enter, h0]

theorem render_cursor_marker_witness :
    colours.MenuItems[1]? = some { Text := "Green", ID := "g", Selectable := true } ∧
    renderRow ansi { colours with CursorPos := 1 } 1
        { Text := "Green", ID := "g", Selectable := true }
      = "\r" ++ ansi.Color "> " ansi.YELLOW ++ " " ++ ansi.Color "Green" ansi.YELLOW
          ++ rowBreak { colours with CursorPos := 1 } 1 ∧
    renderRow ansi { colours with CursorPos := -1 } 1
        { Text := "Green", ID := "g", Selectable := true }
      = "\r" ++ "  " ++ " " ++ "Green" ++ rowBreak { colours with CursorPos := -1 } 1 :=
  ⟨by decide,
    (render_cursor_marker ansi { colours with CursorPos := 1 } true 1
      { Text := "Green", ID := "g", Selectable := true } (by decide)).2.1 rfl rfl,
    (render_cursor_marker ansi { colours with CursorPos := -1 } true 1
      { Text := "Green", ID := "g", Selectable := true } (by decide)).2.2.2.2.1 rfl⟩

/-- C16: with the cursor on a selectable row `c`, Down moves it `d` rows forward
(`1 ≤ d ≤ len`, cyclically) to a selectable row with no selectable row strictly
between, and Up moves it `d` rows back in the same way; when `c` is the only
selectable row both keys leave the menu as it is; and every selectable row is
reached from `c` by some number of Down keys. -/
theorem arrows_move_to_nearest_selectable (g : Goterm) (m : Menu) (c : Nat)
    (hc : m.CursorPos = (c : Int)) (hs : selectableAt m.MenuItems c = true) :
    (∃ d, 1 ≤ d ∧ d ≤ m.MenuItems.length ∧
      handleKey g m down
        = .again { m with CursorPos := (((c + d) % m.MenuItems.length : Nat) : Int) }
            (renderMenuItems g
              { m with CursorPos := (((c + d) % m.MenuItems.length : Nat) : Int) } true) ∧
      selectableAt m.MenuItems ((c + d) % m.MenuItems.length) = true ∧
      ∀ e, 1 ≤ e → e < d →
        selectableAt m.MenuItems ((c + e) % m.MenuItems.length) = false) ∧
    (∃ d, 1 ≤ d ∧ d ≤ m.MenuItems.length ∧
      handleKey g m up
        = .again
            { m with CursorPos :=
                (((c + m.MenuItems.length - d) % m.MenuItems.length : Nat) : Int) }
            (renderMenuItems g
              { m with CursorPos :=
                  (((c + m.MenuItems.length - d) % m.MenuItems.length : Nat) : Int) } true) ∧
      selectableAt m.MenuItems ((c + m.MenuItems.length - d) % m.MenuItems.length) = true ∧
      ∀ e, 1 ≤ e → e < d →
        selectableAt m.MenuItems ((c + m.MenuItems.length - e) % m.MenuItems.length)
          = false) ∧
    ((∀ s, selectableAt m.MenuItems s = true → s = c) →
      handleKey g m down = .again m (renderMenuItems g m true) ∧
      handleKey g m up = .again m (renderMenuItems g m true)) ∧
    (∀ (s : Nat) (out : String), selectableAt m.MenuItems s = true →
      ∃ (k : Nat) (out1 : String), displayLoop g m out (List.replicate k down)
        = .awaiting { m with CursorPos := (s : Int) } out1) := by
  have hlt := selectableAt_lt _ _ hs
  refine ⟨handleKey_down_nearest g m c hc hs, handleKey_up_nearest g m c hc hs, ?_, ?_⟩
  · intro honly
    obtain ⟨d1, _, _, hd, hsd, _⟩ := handleKey_down_nearest g m c hc hs
    obtain ⟨d2, _, _, hu, hsu, _⟩ := handleKey_up_nearest g m c hc hs
    rw [menu_with_cursor m _ c hc (honly _ hsd)] at hd
    rw [menu_with_cursor m _ c hc (honly _ hsu)] at hu
    exact ⟨hd, hu⟩
  · intro s out hss
    obtain ⟨d, _, hd⟩ := reach_down m.MenuItems.length c s hlt (selectableAt_lt _ _ hss)
    rw [Nat.mul_one] at hd
    exact reach_by_down g d m out c s hc hs hss hd

theorem arrows_move_to_nearest_selectable_witness :
    mixed.CursorPos = ((1 : Nat) : Int) ∧ selectableAt mixed.MenuItems 1 = true ∧
    selectableAt mixed.MenuItems 3 = true ∧
    ∃ (k : Nat) (out1 : String),
      displayLoop ansi mixed "" (List.replicate k down)
        = .awaiting { mixed with CursorPos := ((3 : Nat) : Int) } out1 :=
  ⟨by decide, by decide, by decide,
    (arrows_move_to_nearest_selectable ansi mixed 1 (by decide) (by decide)).2.2.2 3 ""
      (by decide)⟩

/-- C17: with the cursor on a selectable row, whether or not the menu also has
hints, handling Up and then Down gives back the menu it started from, cursor
included, and so does handling Down and then Up. -/
theorem up_down_inverse_with_hints (g : Goterm) (m : Menu) (it : MenuItem)
    (hidx : index m.MenuItems m.CursorPos = some it) (hsel : it.Selectable = true) :
    (∃ m1 o1 o2, handleKey g m up = .again m1 o1 ∧ handleKey g m1 down = .again m o2) ∧
    (∃ m1 o1 o2, handleKey g m down = .again m1 o1 ∧ handleKey g m1 up = .again m o2) := by
  obtain ⟨c, hc, hget⟩ := (index_eq_some_iff _ _ _).1 hidx
  have hs : selectableAt m.MenuItems c = true :=
    (selectableAt_true_iff _ _).2 ⟨it, hget, hsel⟩
  have hlt := selectableAt_lt _ _ hs
  have hcn : c % m.MenuItems.length = c := Nat.mod_eq_of_lt hlt
  constructor
  · obtain ⟨d1, h11, h1n, hu, hsu, hminu⟩ := handleKey_up_nearest g m c hc hs
    obtain ⟨d2, h21, h2n, hd, hsd, hmind⟩ := handleKey_down_nearest g
      { m with CursorPos := (((c + m.MenuItems.length - d1) % m.MenuItems.length : Nat) : Int) }
      ((c + m.MenuItems.length - d1) % m.MenuItems.length) rfl hsu
    simp only at hd hsd hmind h2n
    have heq : d2 = d1 := by
      rcases Nat.lt_trichotomy d2 d1 with hlt2 | heq | hgt
      · rw [up_down_arith _ c d1 d2 (by omega) h1n] at hsd
        rw [hminu (d1 - d2) (by omega) (by omega)] at hsd
        exact Bool.noConfusion hsd
      · exact heq
      · have := hmind d1 h11 hgt
        rw [up_down_arith _ c d1 d1 (Nat.le_refl _) h1n, Nat.sub_self, Nat.sub_zero,
          Nat.add_mod_right, hcn, hs] at this
        exact Bool.noConfusion this
    subst heq
    have e : ((c + m.MenuItems.length - d2) % m.MenuItems.length + d2) % m.MenuItems.length
        = c := by
      rw [up_down_arith _ c d2 d2 (Nat.le_refl _) h1n, Nat.sub_self, Nat.sub_zero,
        Nat.add_mod_right, hcn]
    rw [menu_with_cursor m _ c hc e] at hd
    exact ⟨_, _, _, hu, hd⟩
  · obtain ⟨d1, h11, h1n, hd, hsd, hmind⟩ := handleKey_down_nearest g m c hc hs
    obtain ⟨d2, h21, h2n, hu, hsu, hminu⟩ := handleKey_up_nearest g
      { m with CursorPos := (((c + d1) % m.MenuItems.length : Nat) : Int) }
      ((c + d1) % m.MenuItems.length) rfl hsd
    simp only at hu hsu hminu h2n
    have heq : d2 = d1 := by
      rcases Nat.lt_trichotomy d2 d1 with hlt2 | heq | hgt
      · rw [down_up_arith _ c d1 d2 (by omega) h2n] at hsu
        rw [hmind (d1 - d2) (by omega) (by omega)] at hsu
        exact Bool.noConfusion hsu
      · exact heq
      · have := hminu d1 h11 hgt
        rw [down_up_arith _ c d1 d1 (Nat.le_refl _) h1n, Nat.sub_self, Nat.add_zero,
          hcn, hs] at this
        exact Bool.noConfusion this
    subst heq
    have e : ((c + d2) % m.MenuItems.length + m.MenuItems.length - d2) % m.MenuItems.length
        = c := by
      rw [down_up_arith _ c d2 d2 (Nat.le_refl _) h1n, Nat.sub_self, Nat.add_zero, hcn]
    rw [menu_with_cursor m _ c hc e] at hu
    exact ⟨_, _, _, hd, hu⟩

theorem up_down_inverse_with_hints_witness :
    index mixed.MenuItems mixed.CursorPos
      = some { Text := "Red", ID := "r", Selectable := true } ∧
    (∃ m1 o1 o2, handleKey ansi mixed up = .again m1 o1 ∧
      handleKey ansi m1 down = .again mixed o2) ∧
    (∃ m1 o1 o2, handleKey ansi mixed down = .again m1 o1 ∧
      handleKey ansi m1 up = .again mixed o2) :=
  ⟨by decide,
    up_down_inverse_with_hints ansi mixed { Text := "Red", ID := "r", Selectable := true }
      (by decide) rfl⟩

/-- C18: a menu reached from `NewMenu` through `AddItem`, `AddHint` and `Display`
sessions that returned has `-1 ≤ CursorPos < len(MenuItems)`; and in any session on
it, an Up or Down key read by the loop does not fail and leaves
`0 ≤ CursorPos < len(MenuItems)`. -/
theorem reachable_cursor_in_range (m : Menu) (hr : Reachable m) :
    (-1 ≤ m.CursorPos ∧ m.CursorPos < (m.MenuItems.length : Int)) ∧
    ∀ (g : Goterm) (pre : List Nat) (key : Nat) (m1 : Menu) (out1 : String),
      key = up ∨ key = down → Display g m pre = .awaiting m1 out1 →
      ∃ (m2 : Menu) (o : String), handleKey g m1 key = .again m2 o ∧
        0 ≤ m2.CursorPos ∧ m2.CursorPos < (m2.MenuItems.length : Int) := by
  refine ⟨reachable_range m hr, ?_⟩
  intro g pre key m1 out1 hk hpre
  obtain ⟨hlo, hhi⟩ := reachable_range m hr
  obtain ⟨hn, hlo0, hhi0⟩ := displayStart_range g m hlo hhi
  have hm : (displayLoop g (displayStart g m).1 (displayStart g m).2 pre).menu? = some m1 := by
    have : Display g m pre = displayLoop g (displayStart g m).1 (displayStart g m).2 pre := rfl
    rw [← this, hpre]
    rfl
  obtain ⟨hitems, _, h1, h2⟩ := displayLoop_range g pre _ _ hn hlo0 hhi0 m1 hm
  rw [← hitems] at hn h2
  have hk' : (key = up ∧ (if key = up then cursorUp else cursorDown) = cursorUp) ∨
      (key = down ∧ (if key = up then cursorUp else cursorDown) = cursorDown) := by
    rcases hk with rfl | rfl
    · exact Or.inl ⟨rfl, by simp⟩
    · exact Or.inr ⟨rfl, by simp [up, down]⟩
  obtain ⟨c0, c1, n1, _, _, _, hc1, hstep⟩ := handleKey_arrow_in_range g m1 key _ hk' hn h1 h2
  refine ⟨_, _, hstep, ?_, ?_⟩
  · simp only
    omega
  · simp only
    omega

theorem reachable_cursor_in_range_witness :
    Reachable colours ∧
    (-1 ≤ colours.CursorPos ∧ colours.CursorPos < (colours.MenuItems.length : Int)) ∧
    ∀ (g : Goterm) (pre : List Nat) (key : Nat) (m1 : Menu) (out1 : String),
      key = up ∨ key = down → Display g colours pre = .awaiting m1 out1 →
      ∃ (m2 : Menu) (o : String), handleKey g m1 key = .again m2 o ∧
        0 ≤ m2.CursorPos ∧ m2.CursorPos < (m2.MenuItems.length : Int) :=
  have hr : Reachable colours :=
    Reachable.addItem "Blue" "b" (Reachable.addItem "Green" "g"
      (Reachable.addItem "Red" "r" (Reachable.newMenu "Colour")))
  ⟨hr, reachable_cursor_in_range colours hr⟩

end Gocliselect
